import Mathlib

/-!
Shallow embedding of the `vidsynt` H.265/HEVC syntax-parsing core, together
with theorems settling the frozen claims about it.

Conventions of the embedding:
* Byte streams are `List Nat` (each element intended `< 256`); bit streams
  are `List Bool` (most significant bit of a byte first, as `bitstream_io`'s
  `BigEndian` reader produces them).
* Machine integers are modelled as `Nat`/`Int`; where a wraparound or a
  truncating cast occurs in the Rust source it is written out explicitly
  (`% 2 ^ 32`, `% 256`, ...).
* Fallible Rust code (`Result<_, io::Error>`) becomes `Except ErrKind _`.
  Rust panics that the source can reach (`unwrap`, `expect`, `todo!`,
  array-index and arithmetic overflow panics) are modelled as the distinct
  error value `ErrKind.panicked`.
-/

namespace Vidsynt

/-- The error classes the code under verification distinguishes
(`std::io::ErrorKind` values it creates or inspects, plus a marker for
reachable panics). -/
inductive ErrKind where
  | unexpectedEof
  | invalidData
  | invalidInput
  | panicked
deriving DecidableEq, Repr

/-- A bit-level reader over a `List Bool`, mirroring `bitstream_io`'s
`BitReader<R, BigEndian>`: a parser consumes bits from the front of the
list. -/
def BitReaderM (α : Type) : Type := List Bool → Except ErrKind (α × List Bool)

instance : Monad BitReaderM where
  pure a := fun bs => .ok (a, bs)
  bind p f := fun bs =>
    match p bs with
    | .ok (a, rest) => f a rest
    | .error e => .error e

@[simp] theorem BitReaderM.pure_apply {α : Type} (a : α) (bs : List Bool) :
    (pure a : BitReaderM α) bs = .ok (a, bs) := rfl

@[simp] theorem BitReaderM.bind_apply {α β : Type} (p : BitReaderM α)
    (f : α → BitReaderM β) (bs : List Bool) :
    (p >>= f) bs =
      match p bs with
      | .ok (a, rest) => f a rest
      | .error e => .error e := rfl

/-- Failing parser (an `io::Error` of the given kind). -/
def bfail {α : Type} (e : ErrKind) : BitReaderM α := fun _ => .error e

@[simp] theorem bfail_apply {α : Type} (e : ErrKind) (bs : List Bool) :
    (bfail e : BitReaderM α) bs = .error e := rfl

/-- `BitRead::read_bit`: one bit, `UnexpectedEof` when the source is
exhausted. -/
def readBit : BitReaderM Bool := fun bs =>
  match bs with
  | [] => .error .unexpectedEof
  | b :: rest => .ok (b, rest)

/-- Accumulator worker for `BitRead::read::<uN>(count)`: big-endian fold of
`count` bits. -/
def readBitsAux : Nat → Nat → BitReaderM Nat
  | 0, acc => pure acc
  | n + 1, acc => fun bs =>
    match bs with
    | [] => .error .unexpectedEof
    | b :: rest => readBitsAux n (2 * acc + (if b then 1 else 0)) rest

/-- `BitRead::read::<uN>(count)` for `count` not exceeding the integer
width: `count` bits, most significant first. -/
def readBits (n : Nat) : BitReaderM Nat := readBitsAux n 0

/-- `BitRead::read::<u32>(count)`: `bitstream_io` refuses a count larger
than the width of the requested integer type ("excessive bits for type
read"). -/
def readU32 (n : Nat) : BitReaderM Nat :=
  if n ≤ 32 then readBits n else bfail .invalidInput

/-- `BitRead::read::<u16>(count)` with `bitstream_io`'s width check. -/
def readU16 (n : Nat) : BitReaderM Nat :=
  if n ≤ 16 then readBits n else bfail .invalidInput

/-- `BitRead::read::<u8>(count)` with `bitstream_io`'s width check. -/
def readU8 (n : Nat) : BitReaderM Nat :=
  if n ≤ 8 then readBits n else bfail .invalidInput

/-- `BitRead::read_unary1`: the number of `false` bits before the first
`true` bit (the terminating bit is consumed). -/
def readUnary1 : BitReaderM Nat := fun bs =>
  match bs with
  | [] => .error .unexpectedEof
  | true :: rest => .ok (0, rest)
  | false :: rest =>
    match readUnary1 rest with
    | .ok (k, rest') => .ok (k + 1, rest')
    | .error e => .error e

/-- `read_exp_golomb_ue` from `src/base.rs`:
`(1 << leading_zero_count) - 1 + reader.read::<u32>(leading_zero_count)`.
The arithmetic is `u32`: the shift amount is masked to the width and the
result reduced `mod 2^32` (Rust's unchecked semantics; with overflow checks
the `leading_zero_count = 32` case panics instead — either way the
mathematical value `2^32 - 1 + suffix` is never produced). -/
def read_exp_golomb_ue : BitReaderM Nat := do
  let leadingZeroCount ← readUnary1
  let suffix ← readU32 leadingZeroCount
  pure (((1 <<< (leadingZeroCount % 32)) - 1 + suffix) % 2 ^ 32)

/-- `read_exp_golomb_ue_count_bits` from `src/base.rs`: the same decoder,
also returning the number of bits consumed
(`leading_zero_count + 1 + leading_zero_count`). -/
def read_exp_golomb_ue_count_bits : BitReaderM (Nat × Nat) := do
  let leadingZeroCount ← readUnary1
  let suffix ← readU32 leadingZeroCount
  pure ((((1 <<< (leadingZeroCount % 32)) - 1 + suffix) % 2 ^ 32),
        leadingZeroCount + 1 + leadingZeroCount)

/-- `read_exp_golomb_se` from `src/base.rs`: signed mapping of the unsigned
code. -/
def read_exp_golomb_se : BitReaderM Int := do
  let codeNum ← read_exp_golomb_ue
  if codeNum % 2 = 1 then
    pure (Int.ofNat (codeNum / 2 + 1))
  else
    pure (-(Int.ofNat (codeNum / 2)))

/-- The bits of `v`, `w` wide, most significant first (the suffix field of
an Exp-Golomb code). -/
def bitsBE : Nat → Nat → List Bool
  | 0, _ => []
  | w + 1, v => v.testBit w :: bitsBE w v

/-- The unsigned order-0 Exp-Golomb codeword with `L` leading zero bits and
suffix `s` (`s < 2 ^ L`): `L` zeros, a one, then `s` in `L` bits; its value
is `2 ^ L - 1 + s`.  This writes out the encoding exactly as the spec
describes it. -/
def expGolombUeCodeword (L s : Nat) : List Bool :=
  List.replicate L false ++ true :: bitsBE L s

@[simp] theorem bitsBE_length (w v : Nat) : (bitsBE w v).length = w := by
  induction w generalizing v with
  | zero => rfl
  | succ w ih => simp [bitsBE, ih]

theorem readUnary1_replicate (L : Nat) (rest : List Bool) :
    readUnary1 (List.replicate L false ++ true :: rest) = .ok (L, rest) := by
  induction L with
  | zero => rfl
  | succ L ih => simp [List.replicate_succ, readUnary1, ih]

theorem readBitsAux_bitsBE (w : Nat) :
    ∀ (v acc : Nat) (rest : List Bool),
      readBitsAux w acc (bitsBE w v ++ rest) =
        .ok (acc * 2 ^ w + v % 2 ^ w, rest) := by
  induction w with
  | zero => intro v acc rest; simp [bitsBE, readBitsAux, Nat.mod_one]
  | succ w ih =>
    intro v acc rest
    have hsplit : v % 2 ^ (w + 1) = 2 ^ w * (v / 2 ^ w % 2) + v % 2 ^ w := by
      rw [Nat.mod_pow_succ]; ring
    by_cases hb : v.testBit w
    · have hbit : v / 2 ^ w % 2 = 1 := by
        simpa [Nat.testBit, Nat.shiftRight_eq_div_pow, Nat.and_one_is_mod] using hb
      have hstep : readBitsAux (w + 1) acc (bitsBE (w + 1) v ++ rest)
          = readBitsAux w (2 * acc + 1) (bitsBE w v ++ rest) := by
        simp [bitsBE, readBitsAux, hb]
      rw [hstep, ih v (2 * acc + 1) rest]
      congr 2
      rw [hsplit, hbit]
      ring
    · have hbit : v / 2 ^ w % 2 = 0 := by
        rcases Nat.mod_two_eq_zero_or_one (v / 2 ^ w) with h | h
        · exact h
        · exact absurd (by simpa [Nat.testBit, Nat.shiftRight_eq_div_pow,
            Nat.and_one_is_mod] using h) hb
      have hstep : readBitsAux (w + 1) acc (bitsBE (w + 1) v ++ rest)
          = readBitsAux w (2 * acc + 0) (bitsBE w v ++ rest) := by
        simp [bitsBE, readBitsAux, hb]
      rw [hstep, ih v (2 * acc + 0) rest]
      congr 2
      rw [hsplit, hbit]
      ring

theorem readBits_bitsBE (w v : Nat) (hv : v < 2 ^ w) (rest : List Bool) :
    readBits w (bitsBE w v ++ rest) = .ok (v, rest) := by
  unfold readBits
  rw [readBitsAux_bitsBE, Nat.zero_mul, Nat.zero_add, Nat.mod_eq_of_lt hv]

theorem read_exp_golomb_ue_codeword (L s : Nat) (hL : L < 32) (hs : s < 2 ^ L)
    (rest : List Bool) :
    read_exp_golomb_ue (expGolombUeCodeword L s ++ rest)
      = .ok (2 ^ L - 1 + s, rest) := by
  have h1 : expGolombUeCodeword L s ++ rest
      = List.replicate L false ++ true :: (bitsBE L s ++ rest) := by
    simp [expGolombUeCodeword]
  have hlt : 2 ^ L - 1 + s < 2 ^ 32 := by
    have h2 : 2 ^ L - 1 + s < 2 ^ (L + 1) := by
      have := Nat.one_le_two_pow (n := L)
      omega
    have h3 : 2 ^ (L + 1) ≤ 2 ^ 32 := Nat.pow_le_pow_right (by omega) (by omega)
    omega
  simp only [read_exp_golomb_ue, BitReaderM.bind_apply, h1, readUnary1_replicate,
    readU32, if_pos (Nat.le_of_lt hL), readBits_bitsBE L s hs,
    BitReaderM.pure_apply]
  rw [Nat.mod_eq_of_lt hL, Nat.shiftLeft_eq, Nat.one_mul, Nat.mod_eq_of_lt hlt]

/-- C5 (amended): for every `n` with `n + 1` representable in `u32`
(`n ≤ 2^32 - 2`), decoding the unsigned order-0 Exp-Golomb encoding of `n`
(a unary prefix of `L` zero bits, a one bit, and an `L`-bit suffix `s` with
`n = 2^L - 1 + s`) with `read_exp_golomb_ue` yields `n`; in particular `0`
decodes from "1", `3` from "00100" and `67` from "0000001000100". -/
theorem exp_golomb_ue_roundtrip_amended :
    (∀ (n L s : Nat) (rest : List Bool), n + 1 < 2 ^ 32 → s < 2 ^ L →
      2 ^ L - 1 + s = n →
      read_exp_golomb_ue (expGolombUeCodeword L s ++ rest) = .ok (n, rest)) ∧
    read_exp_golomb_ue [true] = .ok (0, []) ∧
    read_exp_golomb_ue [false, false, true, false, false] = .ok (3, []) ∧
    read_exp_golomb_ue [false, false, false, false, false, false, true,
      false, false, false, true, false, false] = .ok (67, []) := by
  refine ⟨?_, rfl, rfl, rfl⟩
  intro n L s rest h1 h2 h3
  have hpow : 2 ^ L ≤ n + 1 := by
    have := Nat.one_le_two_pow (n := L)
    omega
  have hL : L < 32 := by
    have hlt : (2 : Nat) ^ L < 2 ^ 32 := lt_of_le_of_lt hpow h1
    exact (Nat.pow_lt_pow_iff_right (by norm_num)).mp hlt
  rw [read_exp_golomb_ue_codeword L s hL h2 rest, h3]

/-- C5 witness: instantiation at `n = 67` (`L = 6`, suffix `4`). -/
theorem exp_golomb_ue_roundtrip_amended_witness :
    read_exp_golomb_ue (expGolombUeCodeword 6 4 ++ []) = .ok (67, []) :=
  exp_golomb_ue_roundtrip_amended.1 67 6 4 [] (by norm_num) (by norm_num)
    (by norm_num)

/-- C5 counterexample to the claim as stated: `n = 4294967295 = u32::MAX` is
representable in `u32` and its Exp-Golomb encoding is the codeword with 32
leading zeros and suffix 0 (`2^32 - 1 + 0 = 4294967295`), but decoding that
codeword yields `0`, not `4294967295` (the `u32` computation
`(1 << 32) - 1 + 0` cannot produce `2^32 - 1`: with Rust's unchecked
semantics the shift is masked, with checked semantics it panics). -/
theorem exp_golomb_ue_u32_max_counterexample :
    2 ^ 32 - 1 + 0 = 4294967295 ∧ (0 : Nat) < 2 ^ 32 ∧
    read_exp_golomb_ue (expGolombUeCodeword 32 0 ++ []) = .ok (0, []) ∧
    (0 : Nat) ≠ 4294967295 := by
  refine ⟨by norm_num, by norm_num, rfl, by norm_num⟩

/-! ## Emulation prevention (`ebsp_to_rbsp`, `src/base.rs`) -/

/-- `ebsp_to_rbsp` from `src/base.rs`: the index-based `while` loop of the
source, written as recursion on the suffix of the input that starts at the
current index `i`; the guard `i + 2 < ebsp.len()` is the requirement that
three bytes remain. -/
def ebsp_to_rbsp : List Nat → List Nat
  | [] => []
  | [a] => [a]
  | [a, b] => [a, b]
  | a :: b :: c :: rest =>
    if a = 0 ∧ b = 0 ∧ c = 3 then 0 :: 0 :: ebsp_to_rbsp rest
    else a :: ebsp_to_rbsp (b :: c :: rest)

/-- Whether the byte sequence contains `0x00 0x00 0x03` as three
consecutive bytes somewhere. -/
def hasEpbPattern : List Nat → Bool
  | [] => false
  | [_] => false
  | [_, _] => false
  | a :: b :: c :: rest =>
    if a = 0 ∧ b = 0 ∧ c = 3 then true else hasEpbPattern (b :: c :: rest)

/-- The number of emulation-prevention bytes the scan of `ebsp_to_rbsp`
drops. -/
def epbCount : List Nat → Nat
  | [] => 0
  | [_] => 0
  | [_, _] => 0
  | a :: b :: c :: rest =>
    if a = 0 ∧ b = 0 ∧ c = 3 then epbCount rest + 1
    else epbCount (b :: c :: rest)

theorem ebsp_to_rbsp_of_not_hasEpbPattern :
    ∀ l : List Nat, hasEpbPattern l = false → ebsp_to_rbsp l = l := by
  intro l
  induction l using ebsp_to_rbsp.induct with
  | case1 => intro _; rfl
  | case2 a => intro _; rfl
  | case3 a b => intro _; rfl
  | case4 a b c rest h ih =>
    intro hno
    rw [hasEpbPattern, if_pos h] at hno
    exact absurd hno (by simp)
  | case5 a b c rest h ih =>
    intro hno
    rw [hasEpbPattern, if_neg h] at hno
    rw [ebsp_to_rbsp, if_neg h, ih hno]

theorem ebsp_to_rbsp_length_add_epbCount :
    ∀ l : List Nat, (ebsp_to_rbsp l).length + epbCount l = l.length := by
  intro l
  induction l using ebsp_to_rbsp.induct with
  | case1 => rfl
  | case2 a => rfl
  | case3 a b => rfl
  | case4 a b c rest h ih =>
    rw [ebsp_to_rbsp, if_pos h, epbCount, if_pos h]
    simp only [List.length_cons]
    omega
  | case5 a b c rest h ih =>
    rw [ebsp_to_rbsp, if_neg h, epbCount, if_neg h]
    simp only [List.length_cons] at ih ⊢
    omega

theorem one_le_epbCount_of_hasEpbPattern :
    ∀ l : List Nat, hasEpbPattern l = true → 1 ≤ epbCount l := by
  intro l
  induction l using ebsp_to_rbsp.induct with
  | case1 => intro h; exact absurd h (by simp [hasEpbPattern])
  | case2 a => intro h; exact absurd h (by simp [hasEpbPattern])
  | case3 a b => intro h; exact absurd h (by simp [hasEpbPattern])
  | case4 a b c rest h ih =>
    intro _
    rw [epbCount, if_pos h]
    omega
  | case5 a b c rest h ih =>
    intro hyes
    rw [hasEpbPattern, if_neg h] at hyes
    rw [epbCount, if_neg h]
    exact ih hyes

/-- C6: `ebsp_to_rbsp` copies the input unchanged when it contains no
`00 00 03` triplet, its output length is the input length minus the number
of prevention bytes removed, it strictly shrinks the input whenever a
triplet is present, and `[00, 00, 03, 01]` maps to `[00, 00, 01]`. -/
theorem ebsp_to_rbsp_spec (l : List Nat) :
    (hasEpbPattern l = false → ebsp_to_rbsp l = l) ∧
    (ebsp_to_rbsp l).length + epbCount l = l.length ∧
    (hasEpbPattern l = true → (ebsp_to_rbsp l).length < l.length) ∧
    ebsp_to_rbsp [0, 0, 3, 1] = [0, 0, 1] := by
  refine ⟨ebsp_to_rbsp_of_not_hasEpbPattern l, ebsp_to_rbsp_length_add_epbCount l,
    ?_, rfl⟩
  intro hyes
  have h1 := ebsp_to_rbsp_length_add_epbCount l
  have h2 := one_le_epbCount_of_hasEpbPattern l hyes
  omega

/-- C6 witness: the identity conjunct at `[5, 6]` (no triplet) and the
strict-shrink conjunct at `[0, 0, 3, 1]`. -/
theorem ebsp_to_rbsp_spec_witness :
    ebsp_to_rbsp [5, 6] = [5, 6] ∧
    (ebsp_to_rbsp [0, 0, 3, 1]).length < ([0, 0, 3, 1] : List Nat).length :=
  ⟨(ebsp_to_rbsp_spec [5, 6]).1 rfl, (ebsp_to_rbsp_spec [0, 0, 3, 1]).2.2.1 rfl⟩

/-! ## NAL unit header model (`src/h265/nalu.rs`) -/

/-- `NaluType` from `src/h265/nalu.rs`: the 21-variant taxonomy of NAL unit
type codes the crate defines (Table 7-1 of the codec spec, as far as the
crate models it). -/
inductive NaluType where
  | trailN
  | trailR
  | radlN
  | radlR
  | raslN
  | raslR
  | rsvVclN10
  | rsvVclN12
  | rsvVclN14
  | blaWLp
  | blaWRadl
  | blaNLp
  | idrWRadl
  | idrNLp
  | craNut
  | rsvIrapVcl22
  | rsvIrapVcl23
  | vpsNut
  | spsNut
  | ppsNut
  | audNut
deriving DecidableEq, Repr

namespace NaluType

/-- The numeric discriminant of each variant (`#[repr(u8)]` values; `*self
as u8` in the source). -/
def toCode : NaluType → Nat
  | .trailN => 0
  | .trailR => 1
  | .radlN => 6
  | .radlR => 7
  | .raslN => 8
  | .raslR => 9
  | .rsvVclN10 => 10
  | .rsvVclN12 => 12
  | .rsvVclN14 => 14
  | .blaWLp => 16
  | .blaWRadl => 17
  | .blaNLp => 18
  | .idrWRadl => 19
  | .idrNLp => 20
  | .craNut => 21
  | .rsvIrapVcl22 => 22
  | .rsvIrapVcl23 => 23
  | .vpsNut => 32
  | .spsNut => 33
  | .ppsNut => 34
  | .audNut => 35

/-- `NaluType::is_irap`. -/
def is_irap : NaluType → Bool
  | .blaWLp | .blaWRadl | .blaNLp | .idrWRadl | .idrNLp | .craNut
  | .rsvIrapVcl22 | .rsvIrapVcl23 => true
  | _ => false

/-- `NaluType::is_radl`. -/
def is_radl : NaluType → Bool
  | .radlN | .radlR => true
  | _ => false

/-- `NaluType::is_rasl`. -/
def is_rasl : NaluType → Bool
  | .raslN | .raslR => true
  | _ => false

/-- `NaluType::is_bla`. -/
def is_bla : NaluType → Bool
  | .blaWLp | .blaWRadl | .blaNLp => true
  | _ => false

/-- `NaluType::is_idr`. -/
def is_idr : NaluType → Bool
  | .idrWRadl | .idrNLp => true
  | _ => false

/-- `NaluType::is_reference`: below code 16 the low bit decides, from 16 on
always a reference. -/
def is_reference (t : NaluType) : Bool :=
  if t.toCode < 16 then t.toCode &&& 1 = 1 else true

/-- `NaluType::is_coded_slice_segment`. -/
def is_coded_slice_segment : NaluType → Bool
  | .trailN | .trailR | .radlN | .radlR | .raslN | .raslR | .blaWLp
  | .blaWRadl | .blaNLp | .idrWRadl | .idrNLp | .craNut | .rsvIrapVcl22
  | .rsvIrapVcl23 => true
  | _ => false

end NaluType

/-- `TryFrom<u8> for NaluType` from `src/h265/nalu.rs`: the error carries
the offending value (the source formats it into the error string). -/
def naluTypeTryFromU8 : Nat → Except Nat NaluType
  | 0 => .ok .trailN
  | 1 => .ok .trailR
  | 8 => .ok .raslN
  | 9 => .ok .raslR
  | 16 => .ok .blaWLp
  | 17 => .ok .blaWRadl
  | 18 => .ok .blaNLp
  | 19 => .ok .idrWRadl
  | 20 => .ok .idrNLp
  | 21 => .ok .craNut
  | 22 => .ok .rsvIrapVcl22
  | 23 => .ok .rsvIrapVcl23
  | 32 => .ok .vpsNut
  | 33 => .ok .spsNut
  | 34 => .ok .ppsNut
  | 35 => .ok .audNut
  | v => .error v

/-- `NaluHeader` from `src/h265/nalu.rs`. -/
structure NaluHeader where
  nal_unit_type : NaluType
  nuh_layer_id : Nat
  nuh_temporal_id_plus1 : Nat
deriving DecidableEq, Repr

/-- `NaluHeader::from_reader`: reads exactly 2 bytes; one reserved bit, a
6-bit type code (validated through `TryFrom<u8>`, failure mapped to an
`InvalidData` io error), a 6-bit layer id and a 3-bit temporal id.  The
bit fields are written here as arithmetic on the two bytes `b0 b1`
(`b0 = forbidden_zero_bit ++ type[5:0] ++ layer[5]`,
`b1 = layer[4:0] ++ tid[2:0]`). -/
def naluHeaderFromBytes (bytes : List Nat) :
    Except ErrKind (NaluHeader × List Nat) :=
  match bytes with
  | b0 :: b1 :: rest =>
    let typeCode := b0 / 2 % 64
    let layerId := b0 % 2 * 32 + b1 / 8
    let tidPlus1 := b1 % 8
    match naluTypeTryFromU8 typeCode with
    | .ok t => .ok (⟨t, layerId, tidPlus1⟩, rest)
    | .error _ => .error .invalidData
  | _ => .error .unexpectedEof

/-- C4 (code bug): the codes 6, 7, 10, 12, 14 belong to the crate's own
`NaluType` taxonomy (`RadlN`, `RadlR`, `RsvVclN10/12/14`), yet
`TryFrom<u8>` rejects every one of them, so `NaluHeader::from_reader`
fails with an invalid-data error on a header whose type code is 6
(bytes `0x0C 0x01`) — while codes genuinely outside the taxonomy (e.g. 2)
also fail carrying the offending value, and codes such as 19 succeed. -/
theorem radl_and_slnr_codes_rejected_by_tryfrom :
    NaluType.toCode .radlN = 6 ∧ NaluType.toCode .radlR = 7 ∧
    NaluType.toCode .rsvVclN10 = 10 ∧ NaluType.toCode .rsvVclN12 = 12 ∧
    NaluType.toCode .rsvVclN14 = 14 ∧
    naluTypeTryFromU8 6 = .error 6 ∧ naluTypeTryFromU8 7 = .error 7 ∧
    naluTypeTryFromU8 10 = .error 10 ∧ naluTypeTryFromU8 12 = .error 12 ∧
    naluTypeTryFromU8 14 = .error 14 ∧
    naluTypeTryFromU8 2 = .error 2 ∧
    naluTypeTryFromU8 19 = .ok .idrWRadl ∧
    naluHeaderFromBytes [12, 1] = .error .invalidData ∧
    naluHeaderFromBytes [38, 1]
      = .ok (⟨.idrWRadl, 0, 1⟩, []) := by
  refine ⟨rfl, rfl, rfl, rfl, rfl, rfl, rfl, rfl, rfl, rfl, rfl, rfl, rfl, rfl⟩

/-- C8: `is_reference t` holds exactly when `t`'s code is at least 16 or
has low bit 1; type 19 (`IdrWRadl`) is IRAP, IDR, a coded slice segment and
a reference; type 0 (`TrailN`) is a coded slice segment but neither a
reference nor IRAP. -/
theorem nalu_type_predicates_spec :
    (∀ t : NaluType,
      t.is_reference = (decide (16 ≤ t.toCode) || decide (t.toCode % 2 = 1))) ∧
    NaluType.is_irap .idrWRadl = true ∧
    NaluType.is_idr .idrWRadl = true ∧
    NaluType.is_coded_slice_segment .idrWRadl = true ∧
    NaluType.is_reference .idrWRadl = true ∧
    NaluType.is_coded_slice_segment .trailN = true ∧
    NaluType.is_reference .trailN = false ∧
    NaluType.is_irap .trailN = false := by
  refine ⟨?_, rfl, rfl, rfl, rfl, rfl, rfl, rfl⟩
  intro t
  cases t <;> rfl

/-! ## Short-term RPS and slice segment header data model
(`src/h265/rps.rs`, `src/h265/slice.rs`) -/

/-- `InterRefPicSetPrediction` from `src/h265/rps.rs`. -/
structure InterRefPicSetPrediction where
  delta_idx_minus1 : Option Nat
  delta_rps_sign : Nat
  abs_delta_rps_minus1 : Nat
  rps_idx_num_delta_pocs : Option Nat
  used_by_curr_pic_flag : Bool
  use_delta_flag : Bool
deriving DecidableEq, Repr

/-- `NonInterRefPicSetPrediction` from `src/h265/rps.rs`: fixed-capacity
16-slot arrays with separate counts; only the first `num_negative_pics` /
`num_positive_pics` entries are meaningful. -/
structure NonInterRefPicSetPrediction where
  num_negative_pics : Nat
  num_positive_pics : Nat
  delta_poc_s0_minus1 : List Nat
  used_by_curr_pic_s0_flag : List Bool
  delta_poc_s1_minus1 : List Nat
  used_by_curr_pic_s1_flag : List Bool
deriving DecidableEq, Repr

/-- `ShortTermReferencePictureSetValue` from `src/h265/rps.rs`. -/
inductive ShortTermReferencePictureSetValue where
  | interRefPicSetPrediction : InterRefPicSetPrediction →
      ShortTermReferencePictureSetValue
  | nonInterRefPicSetPrediction : NonInterRefPicSetPrediction →
      ShortTermReferencePictureSetValue
deriving DecidableEq, Repr

/-- `ShortTermReferencePictureSet` from `src/h265/rps.rs`. -/
structure ShortTermReferencePictureSet where
  inter_ref_pic_set_prediction_flag : Option Bool
  value : ShortTermReferencePictureSetValue
deriving DecidableEq, Repr

/-- `SliceSegmentContext` from `src/h265/slice.rs`: the nine SPS/PPS-derived
values a caller must supply before a slice header can be parsed. -/
structure SliceSegmentContext where
  dependent_slice_segments_enabled_flag : Bool
  pic_width_in_luma_samples : Nat
  pic_height_in_luma_samples : Nat
  log2_min_luma_coding_block_size_minus3 : Nat
  log2_diff_max_min_luma_coding_block_size : Nat
  num_extra_slice_header_bits : Nat
  output_flag_present_flag : Bool
  separate_colour_plane_flag : Bool
  log2_max_pic_order_cnt_lsb_minus4 : Nat
  num_short_term_ref_pic_sets : Nat
deriving DecidableEq, Repr

/-- `SliceSegmentHeader` from `src/h265/slice.rs`. -/
structure SliceSegmentHeader where
  nal_unit_type : NaluType
  first_slice_segment_in_pic_flag : Bool
  no_output_of_prior_pics_flag : Option Bool
  slice_pic_parameter_set_id : Nat
  dependent_slice_segment_flag : Option Bool
  slice_segment_address : Option Nat
  short_term_ref_pic_set_sps_flag : Option Bool
  short_term_ref_pic_set : Option ShortTermReferencePictureSet
  short_term_ref_pic_set_size : Option Nat
  slice_pic_order_cnt_lsb : Option Nat
  short_term_ref_pic_set_idx : Option Nat
  curr_rps_idx : Nat
deriving DecidableEq, Repr

/-! ## POC computation (`src/h265/poc.rs`) -/

/-- `PocComputer` from `src/h265/poc.rs`: `i32` state modelled as `Int`
(the values handled by the verified theorems stay far inside the `i32`
range). -/
structure PocComputer where
  is_first_picture : Bool
  ref_pic_order_cnt_msb : Int
  ref_pic_order_cnt_lsb : Int
deriving DecidableEq, Repr

/-- `Default for PocComputer`. -/
def PocComputer.default : PocComputer := ⟨true, 0, 0⟩

/-- `PocComputer::reset`: restore the initial state. -/
def PocComputer.reset (_s : PocComputer) : PocComputer := ⟨true, 0, 0⟩

/-- `PocComputer::compute_poc_ex` from `src/h265/poc.rs`, returning the POC
together with the updated state (the Rust method mutates `self`).
`1 << (log2_max_pic_order_cnt_lsb_minus4 + 4)` is written as an exact power
of two (for the codec's range `log2_max_pic_order_cnt_lsb_minus4 ≤ 12` the
`i32` shift cannot overflow); `nuh_temporal_id_plus1 - 1` is `u8`
subtraction, which panics (debug) or wraps (release) for
`nuh_temporal_id_plus1 = 0` — theorems about the updated state therefore
assume `1 ≤ nuh_temporal_id_plus1`. -/
def PocComputer.compute_poc_ex (s : PocComputer)
    (log2_max_pic_order_cnt_lsb_minus4 : Nat)
    (nuh_temporal_id_plus1 : Nat) (slice_nal_unit_type : NaluType)
    (slice_pic_order_cnt_lsb : Int) : Int × PocComputer :=
  if slice_nal_unit_type.is_idr then
    (0, s)
  else
    let max_pic_order_cnt_lsb : Int :=
      2 ^ (log2_max_pic_order_cnt_lsb_minus4 + 4)
    let no_rasl_output_flag : Bool :=
      if slice_nal_unit_type.is_irap then
        slice_nal_unit_type.is_idr || slice_nal_unit_type.is_bla ||
          s.is_first_picture
      else
        false
    let pic_order_cnt_msb : Int :=
      if !slice_nal_unit_type.is_irap || !no_rasl_output_flag then
        let prev_pic_order_cnt_lsb := s.ref_pic_order_cnt_lsb
        let prev_pic_order_cnt_msb := s.ref_pic_order_cnt_msb
        if slice_pic_order_cnt_lsb < prev_pic_order_cnt_lsb ∧
            max_pic_order_cnt_lsb / 2
              ≤ prev_pic_order_cnt_lsb - slice_pic_order_cnt_lsb then
          prev_pic_order_cnt_msb + max_pic_order_cnt_lsb
        else if prev_pic_order_cnt_lsb < slice_pic_order_cnt_lsb ∧
            max_pic_order_cnt_lsb / 2
              < slice_pic_order_cnt_lsb - prev_pic_order_cnt_lsb then
          prev_pic_order_cnt_msb - max_pic_order_cnt_lsb
        else
          prev_pic_order_cnt_msb
      else
        0
    let temporal_id := nuh_temporal_id_plus1 - 1
    let s' :=
      if temporal_id = 0 ∧ slice_nal_unit_type.is_rasl = false ∧
          slice_nal_unit_type.is_radl = false then
        { s with ref_pic_order_cnt_lsb := slice_pic_order_cnt_lsb,
                 ref_pic_order_cnt_msb := pic_order_cnt_msb }
      else
        s
    (pic_order_cnt_msb + slice_pic_order_cnt_lsb,
     { s' with is_first_picture := false })

/-- `PocComputer::compute_poc` from `src/h265/poc.rs`, specialised to the
fields it actually reads from the parameter sets
(`sps.log2_max_pic_order_cnt_lsb_minus4` and `pps.nuh_temporal_id_plus1`);
the `.expect(..)` on a missing `slice_pic_order_cnt_lsb` is the `none`
result. -/
def PocComputer.compute_poc (s : PocComputer)
    (sps_log2_max_pic_order_cnt_lsb_minus4 : Nat)
    (pps_nuh_temporal_id_plus1 : Nat)
    (slice_segment_header : SliceSegmentHeader) :
    Option (Int × PocComputer) :=
  if slice_segment_header.nal_unit_type.is_idr then
    some (0, s)
  else
    match slice_segment_header.slice_pic_order_cnt_lsb with
    | none => none
    | some lsb =>
      some (s.compute_poc_ex sps_log2_max_pic_order_cnt_lsb_minus4
        pps_nuh_temporal_id_plus1 slice_segment_header.nal_unit_type
        (Int.ofNat lsb))

/-- The `PicOrderCntMsb` wraparound correction as the amended claim C1
states it: add `maxPocLsb` to the stored MSB when the new LSB is smaller
than the stored LSB by at least half the LSB range, subtract `maxPocLsb`
when it is larger by more than half the range, otherwise keep the stored
MSB. -/
def picOrderCntMsbWraparound (prevMsb prevLsb lsb maxPocLsb : Int) : Int :=
  if lsb < prevLsb ∧ maxPocLsb / 2 ≤ prevLsb - lsb then
    prevMsb + maxPocLsb
  else if prevLsb < lsb ∧ maxPocLsb / 2 < lsb - prevLsb then
    prevMsb - maxPocLsb
  else
    prevMsb

/-- The `PicOrderCntMsb` rule exactly as claim C1 states it: subtract
`maxPocLsb` when the new LSB is smaller than the stored LSB by more than
half the range, add `maxPocLsb` when it is larger by more than half the
range, otherwise keep the stored MSB. -/
def picOrderCntMsbClaimC1 (prevMsb prevLsb lsb maxPocLsb : Int) : Int :=
  if lsb < prevLsb ∧ maxPocLsb / 2 < prevLsb - lsb then
    prevMsb - maxPocLsb
  else if prevLsb < lsb ∧ maxPocLsb / 2 < lsb - prevLsb then
    prevMsb + maxPocLsb
  else
    prevMsb

/-- C1 (amended): for every non-IDR picture that is not an IRAP picture
with `NoRaslOutputFlag` true, `compute_poc_ex` computes `PicOrderCntMsb`
from the stored `(msb, lsb)` pair by the wraparound correction of
`picOrderCntMsbWraparound` (add `maxPocLsb` when the new LSB is smaller by
at least half the range, subtract when larger by more than half), and the
returned POC is that MSB plus `slice_pic_order_cnt_lsb`. -/
theorem poc_msb_wraparound_amended (s : PocComputer)
    (log2m4 tid : Nat) (t : NaluType) (lsb : Int)
    (hidr : t.is_idr = false)
    (hnorasl : t.is_irap = false ∨
      (t.is_bla = false ∧ s.is_first_picture = false)) :
    (s.compute_poc_ex log2m4 tid t lsb).1
      = picOrderCntMsbWraparound s.ref_pic_order_cnt_msb
          s.ref_pic_order_cnt_lsb lsb (2 ^ (log2m4 + 4)) + lsb := by
  rcases hnorasl with h | ⟨hb, hf⟩
  · simp [PocComputer.compute_poc_ex, picOrderCntMsbWraparound, hidr, h]
  · cases hirap : t.is_irap
    · simp [PocComputer.compute_poc_ex, picOrderCntMsbWraparound, hidr, hirap]
    · simp [PocComputer.compute_poc_ex, picOrderCntMsbWraparound, hidr, hirap,
        hb, hf]

/-- C1 witness: instantiation at a trailing picture with stored pair
`(0, 14)`, new LSB `1` and a 16-value LSB range. -/
theorem poc_msb_wraparound_amended_witness :
    (PocComputer.compute_poc_ex ⟨false, 0, 14⟩ 0 1 .trailR 1).1
      = picOrderCntMsbWraparound 0 14 1 (2 ^ (0 + 4)) + 1 :=
  poc_msb_wraparound_amended ⟨false, 0, 14⟩ 0 1 .trailR 1 rfl (Or.inl rfl)

/-- C1 counterexample to the claim as stated: with stored pair `(16, 14)`,
LSB range 16 and new LSB `1` (smaller by 13 > 8), the code *adds* the range
and returns POC `33` while the claim's rule subtracts it and demands `1`;
and with stored pair `(0, 8)` and new LSB `0` (smaller by exactly half the
range) the code corrects (POC `16`) while the claim's strict "more than
half" rule keeps the MSB (POC `0`). -/
theorem poc_msb_wraparound_claim_counterexample :
    (PocComputer.compute_poc_ex ⟨false, 16, 14⟩ 0 1 .trailR 1).1 = 33 ∧
    picOrderCntMsbClaimC1 16 14 1 (2 ^ (0 + 4)) + 1 = 1 ∧
    (33 : Int) ≠ 1 ∧
    (PocComputer.compute_poc_ex ⟨false, 0, 8⟩ 0 1 .trailR 0).1 = 16 ∧
    picOrderCntMsbClaimC1 0 8 0 (2 ^ (0 + 4)) + 0 = 0 ∧
    (16 : Int) ≠ 0 := by
  refine ⟨?_, ?_, by decide, ?_, ?_, by decide⟩ <;> decide

/-- C3 (amended): feeding the POC computer an IDR picture (through
`compute_poc_ex` or `compute_poc`) always yields POC 0 and leaves the
stored reference state unchanged; the explicit `reset` operation is what
restores the initial state `(is_first_picture, msb, lsb) = (true, 0, 0)`. -/
theorem idr_poc_zero_state_unchanged :
    (∀ (s : PocComputer) (log2m4 tid : Nat) (t : NaluType) (lsb : Int),
      t.is_idr = true → s.compute_poc_ex log2m4 tid t lsb = (0, s)) ∧
    (∀ (s : PocComputer) (a b : Nat) (hdr : SliceSegmentHeader),
      hdr.nal_unit_type.is_idr = true → s.compute_poc a b hdr = some (0, s)) ∧
    (∀ s : PocComputer, s.reset = PocComputer.default) := by
  refine ⟨?_, ?_, fun s => rfl⟩
  · intro s _ _ t _ h
    simp [PocComputer.compute_poc_ex, h]
  · intro s a b hdr h
    simp [PocComputer.compute_poc, h]

/-- C3 witness: an IDR picture fed to a computer in a non-initial state. -/
theorem idr_poc_zero_state_unchanged_witness :
    PocComputer.compute_poc_ex ⟨false, 0, 5⟩ 0 1 .idrWRadl 0
      = (0, ⟨false, 0, 5⟩) :=
  idr_poc_zero_state_unchanged.1 ⟨false, 0, 5⟩ 0 1 .idrWRadl 0 rfl

/-- C3 counterexample to the claim as stated: after one trailing picture
the computer's state is `⟨false, 0, 5⟩`; feeding an IDR picture returns 0
but leaves that state intact, which differs from the initial state
(`is_first_picture = true`, msb = lsb = 0). -/
theorem idr_state_reset_counterexample :
    PocComputer.compute_poc_ex ⟨true, 0, 0⟩ 0 1 .trailR 5
      = (5, ⟨false, 0, 5⟩) ∧
    PocComputer.compute_poc_ex ⟨false, 0, 5⟩ 0 1 .idrWRadl 0
      = (0, ⟨false, 0, 5⟩) ∧
    (⟨false, 0, 5⟩ : PocComputer) ≠ PocComputer.default := by
  refine ⟨by decide, by decide, by decide⟩

/-! ## Byte-stream framing (`src/h265/bytestream.rs`) -/

/-- `NaluRef` from `src/h265/nalu_ref.rs`. -/
structure NaluRef where
  offset : Nat
  nal_unit_type : NaluType
deriving DecidableEq, Repr

/-- `ByteStreamContent<T>` from `src/h265/bytestream.rs`. -/
structure ByteStreamContent (T : Type) where
  offset : Nat
  value : T
  consumed : Nat
deriving DecidableEq, Repr

/-- `LengthPrefixedByteStreamContentReader::read_length`: `read_exact` of
`length_size_minus_one + 1` bytes, folded big-endian
(`acc << 8 | x`). -/
def readLength (lengthSizeMinusOne : Nat) (bs : List Nat) :
    Except ErrKind (Nat × List Nat) :=
  if lengthSizeMinusOne + 1 ≤ bs.length then
    .ok ((bs.take (lengthSizeMinusOne + 1)).foldl
          (fun acc x => acc <<< 8 ||| x) 0,
         bs.drop (lengthSizeMinusOne + 1))
  else
    .error .unexpectedEof

/-- `NaluRef::from_reader`: parses the 2-byte NAL unit header and returns
the consumed byte count (always 2) with the reference. -/
def naluRefFromBytes (currentOffset : Nat) (bs : List Nat) :
    Except ErrKind ((Nat × NaluRef) × List Nat) :=
  match naluHeaderFromBytes bs with
  | .ok (header, rest) => .ok ((2, ⟨currentOffset, header.nal_unit_type⟩), rest)
  | .error e => .error e

/-- `LengthPrefixedByteStreamContentReader::read_content`, instantiated at
the `NaluRefReader` content reader: read the length field, hand the reader
to `NaluRef::from_reader`, then skip the record's remaining declared bytes
(`io::Cursor` seeking forward past the end of the data succeeds, so the
skip is a plain `drop`); the `usize` subtraction `length - content_consumed`
panics when the reader consumed more than the declared length. -/
def readContentNaluRef (lengthSizeMinusOne currentOffset : Nat)
    (bs : List Nat) :
    Except ErrKind (ByteStreamContent NaluRef × List Nat) :=
  match readLength lengthSizeMinusOne bs with
  | .error e => .error e
  | .ok (length, bs1) =>
    let contentOffset := currentOffset + lengthSizeMinusOne + 1
    match naluRefFromBytes contentOffset bs1 with
    | .error e => .error e
    | .ok ((contentConsumed, nref), bs2) =>
      if contentConsumed ≤ length then
        .ok (⟨contentOffset, nref, lengthSizeMinusOne + 1 + length⟩,
             bs2.drop (length - contentConsumed))
      else
        .error .panicked

/-- The loop of `read_contents_until_eof` (instantiated at `NaluRefReader`):
accumulate contents until an error; an `UnexpectedEof` error ends the loop
successfully, any other error propagates.  The loop is written with
explicit fuel; the top-level entry point supplies `bytes.length + 1`, which
is sufficient because every successful `read_content` consumes at least one
byte of the source, so the fuel-exhaustion branch is unreachable from the
entry point. -/
def readContentsLoopNaluRef (lengthSizeMinusOne : Nat) :
    Nat → Nat → List Nat → List (ByteStreamContent NaluRef) →
    Except ErrKind (List (ByteStreamContent NaluRef))
  | 0, _, _, _ => .error .panicked
  | fuel + 1, currentOffset, bs, acc =>
    match readContentNaluRef lengthSizeMinusOne currentOffset bs with
    | .ok (c, bs') =>
      readContentsLoopNaluRef lengthSizeMinusOne fuel
        (currentOffset + c.consumed) bs' (acc ++ [c])
    | .error e => if e = .unexpectedEof then .ok acc else .error e

/-- `LengthPrefixedByteStreamContentReader::read_contents_until_eof`
instantiated at the `NaluRefReader` content reader. -/
def read_contents_until_eof_nalu_ref (lengthSizeMinusOne : Nat)
    (bytes : List Nat) : Except ErrKind (List (ByteStreamContent NaluRef)) :=
  readContentsLoopNaluRef lengthSizeMinusOne (bytes.length + 1) 0 bytes []

/-- The big-endian byte encoding of `v`, `n` bytes wide (the length field
of a length-prefixed record). -/
def beBytes : Nat → Nat → List Nat
  | 0, _ => []
  | n + 1, v => beBytes n (v / 256) ++ [v % 256]

/-- One length-prefixed record carrying payload `p`. -/
def encRecord (lengthSizeMinusOne : Nat) (p : List Nat) : List Nat :=
  beBytes (lengthSizeMinusOne + 1) p.length ++ p

/-- A length-prefixed record stream carrying the payloads `ps` in order. -/
def encStream (lengthSizeMinusOne : Nat) : List (List Nat) → List Nat
  | [] => []
  | p :: ps => encRecord lengthSizeMinusOne p ++ encStream lengthSizeMinusOne ps

/-- A payload that the `NaluRefReader` parses successfully: at least the
2 header bytes, a length representable in the length field, genuine byte
values, and a valid NAL unit type code in the first byte. -/
def GoodPayload (lengthSizeMinusOne : Nat) (p : List Nat) : Prop :=
  2 ≤ p.length ∧ p.length < 256 ^ (lengthSizeMinusOne + 1) ∧
  (∀ b ∈ p, b < 256) ∧
  ∃ t, naluTypeTryFromU8 (p.headD 0 / 2 % 64) = .ok t

/-- The NAL unit type encoded in a payload's first header byte. -/
def payloadNaluType (p : List Nat) : NaluType :=
  match naluTypeTryFromU8 (p.headD 0 / 2 % 64) with
  | .ok t => t
  | .error _ => .trailN

/-- The `(offset, value, consumed)` triples `read_contents_until_eof`
produces for the records of `encStream`, starting at stream offset
`off`. -/
def expectedContents (lengthSizeMinusOne : Nat) :
    Nat → List (List Nat) → List (ByteStreamContent NaluRef)
  | _, [] => []
  | off, p :: ps =>
    ⟨off + lengthSizeMinusOne + 1,
     ⟨off + lengthSizeMinusOne + 1, payloadNaluType p⟩,
     lengthSizeMinusOne + 1 + p.length⟩
      :: expectedContents lengthSizeMinusOne
          (off + (lengthSizeMinusOne + 1 + p.length)) ps

@[simp] theorem beBytes_length (n v : Nat) : (beBytes n v).length = n := by
  induction n generalizing v with
  | zero => rfl
  | succ n ih => simp [beBytes, ih]

theorem beBytes_lt (n v : Nat) : ∀ b ∈ beBytes n v, b < 256 := by
  induction n generalizing v with
  | zero => simp [beBytes]
  | succ n ih =>
    intro b hb
    simp only [beBytes, List.mem_append, List.mem_singleton] at hb
    rcases hb with hb | rfl
    · exact ih (v / 256) b hb
    · exact Nat.mod_lt v (by norm_num)

theorem foldl_beBytes (n : Nat) :
    ∀ (v acc : Nat), v < 256 ^ n →
      (beBytes n v).foldl (fun acc x => acc <<< 8 ||| x) acc
        = acc * 256 ^ n + v := by
  induction n with
  | zero =>
    intro v acc hv
    interval_cases v
    simp [beBytes]
  | succ n ih =>
    intro v acc hv
    have hdiv : v / 256 < 256 ^ n := by
      rw [Nat.div_lt_iff_lt_mul (by norm_num)]
      calc v < 256 ^ (n + 1) := hv
        _ = 256 ^ n * 256 := by ring
    have hor : ∀ a b : Nat, b < 256 → (a <<< 8) ||| b = a * 256 + b := by
      intro a b hb
      rw [Nat.shiftLeft_eq]
      have hmul : a * 2 ^ 8 = 2 ^ 8 * a := by ring
      rw [hmul, ← Nat.mul_add_lt_is_or (i := 8) (b := b) (by exact_mod_cast hb) a]
      ring
    rw [beBytes, List.foldl_append]
    simp only [List.foldl_cons, List.foldl_nil]
    rw [ih (v / 256) acc hdiv, hor _ _ (Nat.mod_lt v (by norm_num))]
    have : acc * 256 ^ (n + 1) = acc * 256 ^ n * 256 := by ring
    rw [this]
    omega

theorem readContentNaluRef_record (lsm1 off : Nat) (p : List Nat)
    (rest : List Nat) (hp : GoodPayload lsm1 p) :
    readContentNaluRef lsm1 off (encRecord lsm1 p ++ rest)
      = .ok (⟨off + lsm1 + 1, ⟨off + lsm1 + 1, payloadNaluType p⟩,
              lsm1 + 1 + p.length⟩, rest) := by
  obtain ⟨hlen2, hbound, _hbytes, t, ht⟩ := hp
  have hassoc : encRecord lsm1 p ++ rest
      = beBytes (lsm1 + 1) p.length ++ (p ++ rest) := by
    simp [encRecord]
  have hlength : readLength lsm1 (encRecord lsm1 p ++ rest)
      = .ok (p.length, p ++ rest) := by
    rw [hassoc, readLength, if_pos]
    · rw [List.take_left' (by simp), List.drop_left' (by simp),
        foldl_beBytes (lsm1 + 1) p.length 0 hbound]
      simp
    · simp
  obtain ⟨b0, p1, rfl⟩ : ∃ b0 p1, p = b0 :: p1 := by
    cases p with
    | nil => simp at hlen2
    | cons b0 p1 => exact ⟨b0, p1, rfl⟩
  obtain ⟨b1, p2, rfl⟩ : ∃ b1 p2, p1 = b1 :: p2 := by
    cases p1 with
    | nil => simp at hlen2
    | cons b1 p2 => exact ⟨b1, p2, rfl⟩
  have hhead : naluHeaderFromBytes ((b0 :: b1 :: p2) ++ rest)
      = .ok (⟨payloadNaluType (b0 :: b1 :: p2), b0 % 2 * 32 + b1 / 8, b1 % 8⟩,
             p2 ++ rest) := by
    simp only [List.cons_append, naluHeaderFromBytes]
    simp only [payloadNaluType, List.headD] at ht ⊢
    rw [ht]
  rw [readContentNaluRef, hlength]
  simp only [naluRefFromBytes, hhead]
  rw [if_pos hlen2]
  have hdrop : (p2 ++ rest).drop ((b0 :: b1 :: p2).length - 2) = rest := by
    apply List.drop_left'
    simp
  rw [hdrop]

theorem encStream_length_ge (lsm1 : Nat) (ps : List (List Nat)) :
    ps.length ≤ (encStream lsm1 ps).length := by
  induction ps with
  | nil => simp [encStream]
  | cons p ps ih =>
    simp only [encStream, encRecord, List.length_append, List.length_cons,
      beBytes_length]
    omega

theorem readContentsLoop_encStream (lsm1 : Nat) (ps : List (List Nat)) :
    ∀ (fuel off : Nat) (acc : List (ByteStreamContent NaluRef))
      (tail : List Nat),
      (∀ p ∈ ps, GoodPayload lsm1 p) → tail.length ≤ lsm1 →
      ps.length < fuel →
      readContentsLoopNaluRef lsm1 fuel off (encStream lsm1 ps ++ tail) acc
        = .ok (acc ++ expectedContents lsm1 off ps) := by
  induction ps with
  | nil =>
    intro fuel off acc tail _ htail hfuel
    obtain ⟨fuel, rfl⟩ : ∃ f, fuel = f + 1 := ⟨fuel - 1, by omega⟩
    have hstep : readContentNaluRef lsm1 off (encStream lsm1 [] ++ tail)
        = .error .unexpectedEof := by
      rw [encStream, List.nil_append, readContentNaluRef, readLength,
        if_neg (by omega)]
    rw [readContentsLoopNaluRef, hstep]
    simp [expectedContents]
  | cons p ps ih =>
    intro fuel off acc tail hgood htail hfuel
    obtain ⟨fuel, rfl⟩ : ∃ f, fuel = f + 1 := ⟨fuel - 1, by omega⟩
    have hassoc : encStream lsm1 (p :: ps) ++ tail
        = encRecord lsm1 p ++ (encStream lsm1 ps ++ tail) := by
      simp [encStream]
    have hstep := readContentNaluRef_record lsm1 off p
      (encStream lsm1 ps ++ tail) (hgood p (by simp))
    set c : ByteStreamContent NaluRef :=
      ⟨off + lsm1 + 1, ⟨off + lsm1 + 1, payloadNaluType p⟩,
       lsm1 + 1 + p.length⟩ with hc
    rw [readContentsLoopNaluRef, hassoc, hstep]
    show readContentsLoopNaluRef lsm1 fuel (off + c.consumed)
        (encStream lsm1 ps ++ tail) (acc ++ [c])
      = .ok (acc ++ expectedContents lsm1 off (p :: ps))
    rw [ih fuel (off + c.consumed) (acc ++ [c]) tail
      (fun q hq => hgood q (by simp [hq])) htail (by simpa using hfuel)]
    simp [expectedContents, hc, List.append_assoc]

/-- C2 (amended): for every length-prefixed byte source,
`read_contents_until_eof` returns `Ok` with the successfully parsed records
when end-of-data occurs at a record boundary, *and also* when end-of-data
occurs mid-record (the loop treats every `UnexpectedEof` as normal
termination with the records parsed so far); only errors other than
end-of-data — such as an invalid NAL unit type code — are returned as
errors. -/
theorem read_contents_until_eof_amended :
    (∀ (lsm1 : Nat) (ps : List (List Nat)) (tail : List Nat),
      (∀ p ∈ ps, GoodPayload lsm1 p) → tail.length ≤ lsm1 →
      read_contents_until_eof_nalu_ref lsm1 (encStream lsm1 ps ++ tail)
        = .ok (expectedContents lsm1 0 ps)) ∧
    read_contents_until_eof_nalu_ref 0 [3, 12, 1, 0]
      = .error .invalidData := by
  constructor
  · intro lsm1 ps tail hgood htail
    have hfuel : ps.length < (encStream lsm1 ps ++ tail).length + 1 := by
      have := encStream_length_ge lsm1 ps
      simp only [List.length_append]
      omega
    rw [read_contents_until_eof_nalu_ref,
      readContentsLoop_encStream lsm1 ps _ 0 [] tail hgood htail hfuel]
    simp
  · rfl

/-- C2 witness: a single well-formed VPS record with end-of-data at the
record boundary. -/
theorem read_contents_until_eof_amended_witness :
    read_contents_until_eof_nalu_ref 0 (encStream 0 [[64, 1]] ++ [])
      = .ok (expectedContents 0 0 [[64, 1]]) :=
  read_contents_until_eof_amended.1 0 [[64, 1]] []
    (by
      intro p hp
      rcases List.mem_singleton.mp hp with rfl
      exact ⟨by norm_num, by norm_num, by decide, ⟨.vpsNut, rfl⟩⟩)
    (by simp)

/-- C2 counterexample to the claim as stated: end-of-data mid-record is
*not* an error.  `[2, 64]` declares a 2-byte record of which only one byte
is present (end-of-data inside the record's payload), and with a 2-byte
length field `[0]` ends inside the length prefix; both return `Ok []`
rather than an error. -/
theorem read_contents_until_eof_mid_record_counterexample :
    read_contents_until_eof_nalu_ref 0 [2, 64] = .ok [] ∧
    read_contents_until_eof_nalu_ref 1 [0] = .ok [] ∧
    ∀ e : ErrKind,
      (Except.ok [] : Except ErrKind (List (ByteStreamContent NaluRef)))
        ≠ .error e := by
  refine ⟨rfl, rfl, fun e h => Except.noConfusion h⟩

/-- The loop of `convert_length_prefixed_to_annex_b` from
`src/h265/bytestream.rs`: for each content, record the start-code offset,
emit the 3-byte start code `00 00 01`, then copy the raw NAL unit bytes
(`stream[offset .. offset + (consumed - (length_size_minus_one + 1))]`)
unmodified.  The Rust function takes `ByteStreamContent<Nalu>` values but
reads only their `offset` and `consumed` fields (which the framer computes
identically for every content reader), so the embedding is generic in the
content value type. -/
def convertGo {T : Type} (stream : List Nat) (lengthSizeMinusOne : Nat) :
    List (ByteStreamContent T) → List Nat → List Nat → List Nat × List Nat
  | [], offsets, out => (offsets, out)
  | c :: cs, offsets, out =>
    let startCodeOffset := out.length
    let nalUnitSize := c.consumed - (lengthSizeMinusOne + 1)
    let nalUnitBytes := (stream.drop c.offset).take nalUnitSize
    convertGo stream lengthSizeMinusOne cs (offsets ++ [startCodeOffset])
      (out ++ ([0, 0, 1] ++ nalUnitBytes))

/-- `convert_length_prefixed_to_annex_b` from `src/h265/bytestream.rs`. -/
def convert_length_prefixed_to_annex_b {T : Type} (stream : List Nat)
    (lengthSizeMinusOne : Nat) (contents : List (ByteStreamContent T)) :
    List Nat × List Nat :=
  convertGo stream lengthSizeMinusOne contents [] []

/-- The Annex-B stream the converter is expected to produce: each payload
prefixed with the 3-byte start code. -/
def expAnnexB : List (List Nat) → List Nat
  | [] => []
  | p :: ps => ([0, 0, 1] ++ p) ++ expAnnexB ps

/-- The expected start-code offsets, starting at output position `base`. -/
def expOffsets : Nat → List (List Nat) → List Nat
  | _, [] => []
  | base, p :: ps => base :: expOffsets (base + (3 + p.length)) ps

theorem drop_off_record (lsm1 : Nat) (p : List Nat) (ps : List (List Nat))
    (stream : List Nat) (off : Nat)
    (hdrop : stream.drop off = encStream lsm1 (p :: ps)) :
    stream.drop (off + lsm1 + 1) = p ++ encStream lsm1 ps ∧
    stream.drop (off + (lsm1 + 1 + p.length)) = encStream lsm1 ps := by
  have h1 : stream.drop (off + lsm1 + 1)
      = (stream.drop off).drop (lsm1 + 1) := by
    rw [List.drop_drop]
    congr 1
  have h2 : stream.drop (off + (lsm1 + 1 + p.length))
      = (stream.drop off).drop (lsm1 + 1 + p.length) := by
    rw [List.drop_drop]
  have hrec : encStream lsm1 (p :: ps)
      = beBytes (lsm1 + 1) p.length ++ (p ++ encStream lsm1 ps) := by
    simp [encStream, encRecord]
  constructor
  · rw [h1, hdrop, hrec, List.drop_left' (by simp)]
  · rw [h2, hdrop, hrec, ← List.append_assoc,
      List.drop_left' (by simp [Nat.add_assoc])]

theorem convertGo_expectedContents (lsm1 : Nat) :
    ∀ (ps : List (List Nat)) (stream : List Nat) (off : Nat)
      (offsets out : List Nat),
      stream.drop off = encStream lsm1 ps →
      convertGo stream lsm1 (expectedContents lsm1 off ps) offsets out
        = (offsets ++ expOffsets out.length ps, out ++ expAnnexB ps) := by
  intro ps
  induction ps with
  | nil =>
    intro stream off offsets out _
    simp [expectedContents, convertGo, expOffsets, expAnnexB]
  | cons p ps ih =>
    intro stream off offsets out hdrop
    obtain ⟨hd1, hd2⟩ := drop_off_record lsm1 p ps stream off hdrop
    rw [expectedContents, convertGo]
    have hsize : lsm1 + 1 + p.length - (lsm1 + 1) = p.length := by omega
    have hbytes :
        ((stream.drop (off + lsm1 + 1)).take (lsm1 + 1 + p.length - (lsm1 + 1)))
          = p := by
      rw [hsize, hd1, List.take_left' rfl]
    simp only [hbytes]
    rw [ih stream (off + (lsm1 + 1 + p.length)) (offsets ++ [out.length])
      (out ++ ([0, 0, 1] ++ p)) hd2]
    rw [expOffsets, expAnnexB]
    simp only [List.append_assoc, List.cons_append, List.nil_append,
      List.length_append, List.length_cons, List.length_nil]
    have harg : out.length + (p.length + 1 + 1 + 1)
        = out.length + (3 + p.length) := by omega
    rw [harg]

theorem map_extract_expectedContents (lsm1 : Nat) :
    ∀ (ps : List (List Nat)) (stream : List Nat) (off : Nat),
      stream.drop off = encStream lsm1 ps →
      (expectedContents lsm1 off ps).map
          (fun c => (stream.drop c.offset).take (c.consumed - (lsm1 + 1)))
        = ps := by
  intro ps
  induction ps with
  | nil => intro stream off _; simp [expectedContents]
  | cons p ps ih =>
    intro stream off hdrop
    obtain ⟨hd1, hd2⟩ := drop_off_record lsm1 p ps stream off hdrop
    rw [expectedContents, List.map_cons,
      ih stream (off + (lsm1 + 1 + p.length)) hd2]
    have hsize : lsm1 + 1 + p.length - (lsm1 + 1) = p.length := by omega
    simp only [hsize, hd1, List.take_left' rfl]


/-- C7: for every length-prefixed stream whose records all parse
successfully (well-formed payloads `ps`), the framer produces the
`(offset, value, consumed)` records of `expectedContents`, the converter
emits for each record the 3-byte start code `00 00 01` followed by that
record's raw NAL unit bytes unmodified while recording each unit's
start-code offset, and extracting the emitted NAL unit byte ranges
(excluding start codes) from the source gives back exactly the original
payloads in order — hence their concatenation equals the concatenation of
the original records' payload bytes. -/
theorem convert_annex_b_spec (lsm1 : Nat) (ps : List (List Nat))
    (hgood : ∀ p ∈ ps, GoodPayload lsm1 p) :
    read_contents_until_eof_nalu_ref lsm1 (encStream lsm1 ps)
      = .ok (expectedContents lsm1 0 ps) ∧
    convert_length_prefixed_to_annex_b (encStream lsm1 ps) lsm1
        (expectedContents lsm1 0 ps)
      = (expOffsets 0 ps, expAnnexB ps) ∧
    (expectedContents lsm1 0 ps).map
        (fun c => ((encStream lsm1 ps).drop c.offset).take
          (c.consumed - (lsm1 + 1)))
      = ps := by
  refine ⟨?_, ?_, ?_⟩
  · have hfuel : ps.length < (encStream lsm1 ps).length + 1 := by
      have := encStream_length_ge lsm1 ps
      omega
    have h0 := readContentsLoop_encStream lsm1 ps
      ((encStream lsm1 ps).length + 1) 0 [] [] hgood (by simp) hfuel
    rw [List.append_nil] at h0
    simpa [read_contents_until_eof_nalu_ref] using h0
  · have h0 := convertGo_expectedContents lsm1 ps (encStream lsm1 ps) 0 [] []
      (by simp)
    simpa [convert_length_prefixed_to_annex_b] using h0
  · exact map_extract_expectedContents lsm1 ps (encStream lsm1 ps) 0 (by simp)

/-- C7 witness: a two-record stream (a VPS-typed and an SPS-typed NAL
unit). -/
theorem convert_annex_b_spec_witness :
    convert_length_prefixed_to_annex_b (encStream 0 [[64, 1], [66, 0, 0]]) 0
        (expectedContents 0 0 [[64, 1], [66, 0, 0]])
      = (expOffsets 0 [[64, 1], [66, 0, 0]], expAnnexB [[64, 1], [66, 0, 0]]) :=
  (convert_annex_b_spec 0 [[64, 1], [66, 0, 0]]
    (by
      intro p hp
      simp only [List.mem_cons, List.not_mem_nil, or_false] at hp
      rcases hp with rfl | rfl
      · exact ⟨by norm_num, by norm_num, by decide, ⟨.vpsNut, rfl⟩⟩
      · exact ⟨by norm_num, by norm_num, by decide, ⟨.spsNut, rfl⟩⟩)).2.1

/-! ## Profile, tier and level (`src/h265/ptl.rs`) -/

/-- `p` consumes exactly `k` bits whenever it succeeds. -/
def Consumes {α : Type} (p : BitReaderM α) (k : Nat) : Prop :=
  ∀ bs a rest, p bs = .ok (a, rest) → bs.length = k + rest.length

theorem consumes_pure {α : Type} (a : α) : Consumes (pure a : BitReaderM α) 0 := by
  intro bs b rest h
  simp only [BitReaderM.pure_apply, Except.ok.injEq, Prod.mk.injEq] at h
  simp [h.2]

theorem consumes_readBit : Consumes readBit 1 := by
  intro bs a rest h
  cases bs with
  | nil => exact absurd h (by simp [readBit])
  | cons b t =>
    simp only [readBit, Except.ok.injEq, Prod.mk.injEq] at h
    simp only [← h.2, List.length_cons]
    omega

theorem consumes_readBitsAux (n : Nat) :
    ∀ (acc : Nat), Consumes (readBitsAux n acc) n := by
  induction n with
  | zero =>
    intro acc bs a rest h
    simp only [readBitsAux, BitReaderM.pure_apply, Except.ok.injEq,
      Prod.mk.injEq] at h
    simp [h.2]
  | succ n ih =>
    intro acc bs a rest h
    cases bs with
    | nil => exact absurd h (by simp [readBitsAux])
    | cons b t =>
      have := ih (2 * acc + (if b then 1 else 0)) t a rest h
      simp only [List.length_cons]
      omega

theorem consumes_readBits (n : Nat) : Consumes (readBits n) n :=
  consumes_readBitsAux n 0

theorem consumes_readU32 (n : Nat) : Consumes (readU32 n) n := by
  unfold readU32
  split
  · exact consumes_readBits n
  · intro bs a rest h
    exact absurd h (by simp)

theorem consumes_readU16 (n : Nat) : Consumes (readU16 n) n := by
  unfold readU16
  split
  · exact consumes_readBits n
  · intro bs a rest h
    exact absurd h (by simp)

theorem consumes_readU8 (n : Nat) : Consumes (readU8 n) n := by
  unfold readU8
  split
  · exact consumes_readBits n
  · intro bs a rest h
    exact absurd h (by simp)

theorem consumes_bind {α β : Type} {p : BitReaderM α} {f : α → BitReaderM β}
    {k m n : Nat} (h1 : Consumes p k) (h2 : ∀ a, Consumes (f a) m)
    (he : n = k + m) : Consumes (p >>= f) n := by
  intro bs b rest h
  rw [BitReaderM.bind_apply] at h
  cases hp : p bs with
  | error e => rw [hp] at h; exact absurd h (by simp)
  | ok v =>
    obtain ⟨a, mid⟩ := v
    rw [hp] at h
    have e1 := h1 bs a mid hp
    have e2 := h2 a mid b rest h
    omega

theorem consumes_ite {α : Type} {c : Prop} [Decidable c]
    {p q : BitReaderM α} {k : Nat} (hp : Consumes p k) (hq : Consumes q k) :
    Consumes (if c then p else q) k := by
  split
  · exact hp
  · exact hq

/-- Splitting a successful bind into its two successful halves. -/
theorem bind_ok {α β : Type} {p : BitReaderM α} {f : α → BitReaderM β}
    {bs : List Bool} {b : β} {rest : List Bool}
    (h : (p >>= f) bs = .ok (b, rest)) :
    ∃ a mid, p bs = .ok (a, mid) ∧ f a mid = .ok (b, rest) := by
  rw [BitReaderM.bind_apply] at h
  cases hp : p bs with
  | error e => rw [hp] at h; exact absurd h (by simp)
  | ok v =>
    obtain ⟨a, mid⟩ := v
    rw [hp] at h
    exact ⟨a, mid, rfl, h⟩

/-- A run of `n` individual `read_bit` calls collected into a list (the
32-bit compatibility-flag loop and similar). -/
def readFlags : Nat → BitReaderM (List Bool)
  | 0 => pure []
  | n + 1 => do
    let b ← readBit
    let rest ← readFlags n
    pure (b :: rest)

theorem consumes_readFlags (n : Nat) : Consumes (readFlags n) n := by
  induction n with
  | zero => exact consumes_pure []
  | succ n ih =>
    unfold readFlags
    refine consumes_bind (m := n) consumes_readBit (fun b => ?_) (by omega)
    exact consumes_bind ih (fun rest => consumes_pure _) rfl

/-- `ProfileTierLevelCommon` from `src/h265/ptl.rs` (the
`[bool; 32]` compatibility array as a 32-element list). -/
structure ProfileTierLevelCommon where
  profile_space : Nat
  tier_flag : Bool
  profile_idc : Nat
  profile_compatibility_flags : List Bool
  progressive_source_flag : Bool
  interlaced_source_flag : Bool
  non_packed_constraint_flag : Bool
  frame_only_constraint_flag : Bool
  level_idc : Option Nat
deriving DecidableEq, Repr

/-- `ProfileTierLevel` from `src/h265/ptl.rs`: the `[Option<_>; 6]`
sub-layer array as a 6-element list. -/
structure ProfileTierLevel where
  general : ProfileTierLevelCommon
  sub_layers : List (Option ProfileTierLevelCommon)
deriving DecidableEq, Repr

/-- The `if_profile` closure of `ProfileTierLevel::from_reader`:
`profile_idc == idc || profile_compatibility_flags[idc]`. -/
def ifProfile (profileIdc : Nat) (compatFlags : List Bool) (idc : Nat) :
    Bool :=
  profileIdc = idc || compatFlags.getD idc false

/-- The leading field group every profile/tier/level block starts with
(44 bits): 2-bit profile space, tier flag, 5-bit profile idc, 32
compatibility flag bits, and the four source-format flags.  The source
reads this sequence once for the general block and once per present
sub-layer; the embedding factors the identical sequence into one
parser. -/
def ptlCommonFields : BitReaderM ProfileTierLevelCommon := do
  let profileSpace ← readBits 2
  let tierFlag ← readBit
  let profileIdc ← readBits 5
  let compatFlags ← readFlags 32
  let progressiveSourceFlag ← readBit
  let interlacedSourceFlag ← readBit
  let nonPackedConstraintFlag ← readBit
  let frameOnlyConstraintFlag ← readBit
  pure ⟨profileSpace, tierFlag, profileIdc, compatFlags,
    progressiveSourceFlag, interlacedSourceFlag, nonPackedConstraintFlag,
    frameOnlyConstraintFlag, none⟩

/-- The profile-dependent constraint-bits region of a profile/tier/level
block: three mutually exclusive branches ("range extensions" profiles, the
legacy profile-2 branch, and the reserved-bits default), each 43 bits; the
flag values are read and discarded exactly as the source binds them to
unused locals. -/
def ptlConstraintBits (profileIdc : Nat) (compatFlags : List Bool) :
    BitReaderM Unit :=
  if ifProfile profileIdc compatFlags 4 || ifProfile profileIdc compatFlags 5 ||
      ifProfile profileIdc compatFlags 6 || ifProfile profileIdc compatFlags 7 ||
      ifProfile profileIdc compatFlags 8 || ifProfile profileIdc compatFlags 9 ||
      ifProfile profileIdc compatFlags 10 ||
      ifProfile profileIdc compatFlags 11 then do
    let _max12bitConstraintFlag ← readBit
    let _max10bitConstraintFlag ← readBit
    let _max8bitConstraintFlag ← readBit
    let _max422chromaConstraintFlag ← readBit
    let _max420chromaConstraintFlag ← readBit
    let _maxMonochromeConstraintFlag ← readBit
    let _intraConstraintFlag ← readBit
    let _onePictureOnlyConstraintFlag ← readBit
    let _lowerBitRateConstraintFlag ← readBit
    if ifProfile profileIdc compatFlags 5 || ifProfile profileIdc compatFlags 9 ||
        ifProfile profileIdc compatFlags 10 ||
        ifProfile profileIdc compatFlags 11 then do
      let _max14bitConstraintFlag ← readBit
      let _ ← readU32 32
      let _ ← readBit
      pure ()
    else do
      let _ ← readU32 32
      let _ ← readU32 2
      pure ()
  else if ifProfile profileIdc compatFlags 2 then do
    let _ ← readU32 7
    let _onePictureOnlyConstraintFlag ← readBit
    let _ ← readU32 32
    let _ ← readU32 3
    pure ()
  else do
    let _ ← readU32 32
    let _ ← readU32 11
    pure ()

/-- The `inbld` / reserved bit that closes the constraint region (1 bit on
both branches; "the number of bits in this syntax structure is not affected
by this condition"). -/
def ptlInbldBit (profileIdc : Nat) (compatFlags : List Bool) :
    BitReaderM Unit :=
  if ifProfile profileIdc compatFlags 1 || ifProfile profileIdc compatFlags 2 ||
      ifProfile profileIdc compatFlags 3 || ifProfile profileIdc compatFlags 4 ||
      ifProfile profileIdc compatFlags 5 || ifProfile profileIdc compatFlags 9 ||
      ifProfile profileIdc compatFlags 11 then do
    let _inbldFlag ← readBit
    pure ()
  else do
    let _ ← readBit
    pure ()

/-- The general profile/tier/level block of
`ProfileTierLevel::from_reader`: common fields, constraint region, inbld
bit, then the always-present 8-bit `general_level_idc`. -/
def ptlGeneralBlock : BitReaderM ProfileTierLevelCommon := do
  let f ← ptlCommonFields
  ptlConstraintBits f.profile_idc f.profile_compatibility_flags
  ptlInbldBit f.profile_idc f.profile_compatibility_flags
  let levelIdc ← readU8 8
  pure { f with level_idc := some levelIdc }

/-- The conditional 8-bit `sub_layer_level_idc` read: present only when
the sub-layer's level-present flag was set. -/
def readLevelIdcOpt (levelPresent : Bool) : BitReaderM (Option Nat) :=
  if levelPresent then do
    let v ← readU8 8
    pure (some v)
  else
    pure none

/-- One sub-layer block, parsed only when its profile-present flag was
set. -/
def ptlSubLayerBlock (levelPresent : Bool) :
    BitReaderM ProfileTierLevelCommon := do
  let f ← ptlCommonFields
  ptlConstraintBits f.profile_idc f.profile_compatibility_flags
  ptlInbldBit f.profile_idc f.profile_compatibility_flags
  let levelIdc ← readLevelIdcOpt levelPresent
  pure { f with level_idc := levelIdc }

/-- The up-front loop reading one `(profile present, level present)` flag
pair per sub-layer. -/
def readSubLayerFlagPairs : Nat → BitReaderM (List (Bool × Bool))
  | 0 => pure []
  | n + 1 => do
    let p ← readBit
    let l ← readBit
    let rest ← readSubLayerFlagPairs n
    pure ((p, l) :: rest)

/-- `n` `reserved_zero_2bits` fields. -/
def readPad2 : Nat → BitReaderM Unit
  | 0 => pure ()
  | n + 1 => do
    let _ ← readU8 2
    readPad2 n

/-- The `reserved_zero_2bits` padding: present only when
`max_num_sub_layers_minus1 > 0`, covering `max_num_sub_layers_minus1..8`. -/
def ptlReservedPad (maxNumSubLayersMinus1 : Nat) : BitReaderM Unit :=
  if 0 < maxNumSubLayersMinus1 then readPad2 (8 - maxNumSubLayersMinus1)
  else pure ()

/-- One slot of the sub-layer array: a block when the profile-present flag
was set, `None` otherwise. -/
def ptlSubLayerEntry (profilePresent levelPresent : Bool) :
    BitReaderM (Option ProfileTierLevelCommon) :=
  if profilePresent then do
    let c ← ptlSubLayerBlock levelPresent
    pure (some c)
  else
    pure none

/-- The per-sub-layer block loop, driven by the flag pairs read up
front. -/
def ptlSubLayers : List (Bool × Bool) →
    BitReaderM (List (Option ProfileTierLevelCommon))
  | [] => pure []
  | (profilePresent, levelPresent) :: rest => do
    let entry ← ptlSubLayerEntry profilePresent levelPresent
    let others ← ptlSubLayers rest
    pure (entry :: others)

/-- `ProfileTierLevel::from_reader` from `src/h265/ptl.rs`.  The
`profile_present_flag` parameter is accepted and ignored exactly as in the
source (the body reads the general block unconditionally).  The `[None; 6]`
sub-layer array with the first `max_num_sub_layers_minus1` slots filled is
the parsed list padded with `none`; the embedding covers the source's
domain `max_num_sub_layers_minus1 ≤ 6` (beyond that the source's array
indexing panics). -/
def ProfileTierLevel.from_reader (_profilePresentFlag : Bool)
    (maxNumSubLayersMinus1 : Nat) : BitReaderM ProfileTierLevel := do
  let general ← ptlGeneralBlock
  let flagPairs ← readSubLayerFlagPairs maxNumSubLayersMinus1
  ptlReservedPad maxNumSubLayersMinus1
  let subLayers ← ptlSubLayers flagPairs
  pure ⟨general, subLayers ++ List.replicate (6 - maxNumSubLayersMinus1) none⟩

/-- The bit budget one parsed sub-layer slot accounts for: 88 bits of
profile data plus 8 when its level idc was present; absent slots consume
nothing. -/
def subLayerBits : Option ProfileTierLevelCommon → Nat
  | none => 0
  | some c => 88 + (if c.level_idc.isSome then 8 else 0)

/-- The total bit length of a profile/tier/level structure, determined by
`max_num_sub_layers_minus1` and the presence pattern visible in the parsed
result: 96 bits of general block, 16 bits of flag pairs and padding when
any sub-layers are signalled, and each present sub-layer's block. -/
def ptlTotalBits (maxNumSubLayersMinus1 : Nat) (r : ProfileTierLevel) :
    Nat :=
  96 + (if maxNumSubLayersMinus1 = 0 then 0
        else 2 * maxNumSubLayersMinus1 + 2 * (8 - maxNumSubLayersMinus1)) +
    (r.sub_layers.map subLayerBits).sum

theorem consumes_bind' {α β : Type} {p : BitReaderM α} {f : α → BitReaderM β}
    {k m : Nat} (h1 : Consumes p k) (h2 : ∀ a, Consumes (f a) m) :
    Consumes (p >>= f) (k + m) :=
  consumes_bind h1 h2 rfl

theorem consumes_congr {α : Type} {p : BitReaderM α} {k n : Nat}
    (h : Consumes p k) (he : k = n) : Consumes p n := he ▸ h

theorem consumes_ptlCommonFields : Consumes ptlCommonFields 44 := by
  unfold ptlCommonFields
  refine consumes_bind (m := 42) (consumes_readBits 2) (fun a => ?_) (by norm_num)
  refine consumes_bind (m := 41) consumes_readBit (fun a => ?_) (by norm_num)
  refine consumes_bind (m := 36) (consumes_readBits 5) (fun a => ?_) (by norm_num)
  refine consumes_bind (m := 4) (consumes_readFlags 32) (fun a => ?_) (by norm_num)
  refine consumes_bind (m := 3) consumes_readBit (fun a => ?_) (by norm_num)
  refine consumes_bind (m := 2) consumes_readBit (fun a => ?_) (by norm_num)
  refine consumes_bind (m := 1) consumes_readBit (fun a => ?_) (by norm_num)
  refine consumes_bind (m := 0) consumes_readBit (fun a => ?_) (by norm_num)
  exact consumes_pure _

theorem consumes_ptlConstraintBits (profileIdc : Nat)
    (compatFlags : List Bool) :
    Consumes (ptlConstraintBits profileIdc compatFlags) 43 := by
  unfold ptlConstraintBits
  refine consumes_ite ?_ (consumes_ite ?_ ?_)
  · refine consumes_bind (m := 42) consumes_readBit (fun a => ?_) (by norm_num)
    refine consumes_bind (m := 41) consumes_readBit (fun a => ?_) (by norm_num)
    refine consumes_bind (m := 40) consumes_readBit (fun a => ?_) (by norm_num)
    refine consumes_bind (m := 39) consumes_readBit (fun a => ?_) (by norm_num)
    refine consumes_bind (m := 38) consumes_readBit (fun a => ?_) (by norm_num)
    refine consumes_bind (m := 37) consumes_readBit (fun a => ?_) (by norm_num)
    refine consumes_bind (m := 36) consumes_readBit (fun a => ?_) (by norm_num)
    refine consumes_bind (m := 35) consumes_readBit (fun a => ?_) (by norm_num)
    refine consumes_bind (m := 34) consumes_readBit (fun a => ?_) (by norm_num)
    refine consumes_ite ?_ ?_
    · refine consumes_bind (m := 33) consumes_readBit (fun a => ?_) (by norm_num)
      refine consumes_bind (m := 1) (consumes_readU32 32) (fun a => ?_) (by norm_num)
      refine consumes_bind (m := 0) consumes_readBit (fun a => ?_) (by norm_num)
      exact consumes_pure _
    · refine consumes_bind (m := 2) (consumes_readU32 32) (fun a => ?_) (by norm_num)
      refine consumes_bind (m := 0) (consumes_readU32 2) (fun a => ?_) (by norm_num)
      exact consumes_pure _
  · refine consumes_bind (m := 36) (consumes_readU32 7) (fun a => ?_) (by norm_num)
    refine consumes_bind (m := 35) consumes_readBit (fun a => ?_) (by norm_num)
    refine consumes_bind (m := 3) (consumes_readU32 32) (fun a => ?_) (by norm_num)
    refine consumes_bind (m := 0) (consumes_readU32 3) (fun a => ?_) (by norm_num)
    exact consumes_pure _
  · refine consumes_bind (m := 11) (consumes_readU32 32) (fun a => ?_) (by norm_num)
    refine consumes_bind (m := 0) (consumes_readU32 11) (fun a => ?_) (by norm_num)
    exact consumes_pure _

theorem consumes_ptlInbldBit (profileIdc : Nat) (compatFlags : List Bool) :
    Consumes (ptlInbldBit profileIdc compatFlags) 1 := by
  unfold ptlInbldBit
  refine consumes_ite ?_ ?_ <;>
    exact consumes_bind (m := 0) consumes_readBit (fun a => consumes_pure _)
      (by norm_num)

theorem consumes_ptlGeneralBlock : Consumes ptlGeneralBlock 96 := by
  unfold ptlGeneralBlock
  refine consumes_bind (m := 52) consumes_ptlCommonFields (fun a => ?_) (by norm_num)
  refine consumes_bind (m := 9) (consumes_ptlConstraintBits _ _) (fun a => ?_) (by norm_num)
  refine consumes_bind (m := 8) (consumes_ptlInbldBit _ _) (fun a => ?_) (by norm_num)
  refine consumes_bind (m := 0) (consumes_readU8 8) (fun a => ?_) (by norm_num)
  exact consumes_pure _

theorem ptlSubLayerBlock_spec (lp : Bool) (bs : List Bool)
    (c : ProfileTierLevelCommon) (rest : List Bool)
    (h : ptlSubLayerBlock lp bs = .ok (c, rest)) :
    bs.length = (88 + (if lp then 8 else 0)) + rest.length ∧
    c.level_idc.isSome = lp := by
  unfold ptlSubLayerBlock at h
  obtain ⟨f, m1, h1, h⟩ := bind_ok h
  obtain ⟨u2, m2, h2, h⟩ := bind_ok h
  obtain ⟨u3, m3, h3, h⟩ := bind_ok h
  obtain ⟨lvl, m4, h4, h⟩ := bind_ok h
  have e1 := consumes_ptlCommonFields bs f m1 h1
  have e2 := consumes_ptlConstraintBits _ _ m1 u2 m2 h2
  have e3 := consumes_ptlInbldBit _ _ m2 u3 m3 h3
  have e4 : m3.length = (if lp then 8 else 0) + m4.length ∧ lvl.isSome = lp := by
    unfold readLevelIdcOpt at h4
    cases lp with
    | false =>
      simp only [Bool.false_eq_true, if_false] at h4 ⊢
      simp only [BitReaderM.pure_apply, Except.ok.injEq, Prod.mk.injEq] at h4
      obtain ⟨hl, hm⟩ := h4
      simp [← hl, ← hm]
    | true =>
      simp only [if_pos] at h4 ⊢
      obtain ⟨v, mid, hv, hp⟩ := bind_ok h4
      have := consumes_readU8 8 m3 v mid hv
      simp only [BitReaderM.pure_apply, Except.ok.injEq, Prod.mk.injEq] at hp
      obtain ⟨hl, hm⟩ := hp
      have hmlen : mid.length = m4.length := by rw [hm]
      constructor
      · omega
      · simp [← hl]
  simp only [BitReaderM.pure_apply, Except.ok.injEq, Prod.mk.injEq] at h
  obtain ⟨hc, hrest⟩ := h
  have hrlen : m4.length = rest.length := by rw [hrest]
  obtain ⟨e4a, e4b⟩ := e4
  refine ⟨by omega, ?_⟩
  rw [← hc]
  exact e4b

theorem readSubLayerFlagPairs_spec (n : Nat) :
    ∀ (bs : List Bool) (a : List (Bool × Bool)) (rest : List Bool),
      readSubLayerFlagPairs n bs = .ok (a, rest) →
      bs.length = 2 * n + rest.length ∧ a.length = n := by
  induction n with
  | zero =>
    intro bs a rest h
    simp only [readSubLayerFlagPairs, BitReaderM.pure_apply, Except.ok.injEq,
      Prod.mk.injEq] at h
    simp [← h.1, ← h.2]
  | succ n ih =>
    intro bs a rest h
    unfold readSubLayerFlagPairs at h
    obtain ⟨p, m1, h1, h⟩ := bind_ok h
    obtain ⟨l, m2, h2, h⟩ := bind_ok h
    obtain ⟨tl, m3, h3, h⟩ := bind_ok h
    have e1 := consumes_readBit bs p m1 h1
    have e2 := consumes_readBit m1 l m2 h2
    have e3 := ih m2 tl m3 h3
    simp only [BitReaderM.pure_apply, Except.ok.injEq, Prod.mk.injEq] at h
    obtain ⟨ha, hrest⟩ := h
    obtain ⟨e3a, e3b⟩ := e3
    have hrlen : m3.length = rest.length := by rw [hrest]
    constructor
    · omega
    · rw [← ha]
      simp only [List.length_cons]
      omega

theorem consumes_readPad2 (n : Nat) : Consumes (readPad2 n) (2 * n) := by
  induction n with
  | zero => exact consumes_pure _
  | succ n ih =>
    unfold readPad2
    exact consumes_bind (m := 2 * n) (consumes_readU8 2) (fun a => ih)
      (by omega)

/-- The bit count of the `reserved_zero_2bits` padding. -/
def ptlReservedPadBits (maxNumSubLayersMinus1 : Nat) : Nat :=
  if 0 < maxNumSubLayersMinus1 then 2 * (8 - maxNumSubLayersMinus1) else 0

theorem consumes_ptlReservedPad (maxNumSubLayersMinus1 : Nat) :
    Consumes (ptlReservedPad maxNumSubLayersMinus1)
      (ptlReservedPadBits maxNumSubLayersMinus1) := by
  unfold ptlReservedPad ptlReservedPadBits
  by_cases h : 0 < maxNumSubLayersMinus1
  · rw [if_pos h, if_pos h]
    exact consumes_readPad2 _
  · rw [if_neg h, if_neg h]
    exact consumes_pure _

theorem ptlSubLayers_spec :
    ∀ (pairs : List (Bool × Bool)) (bs : List Bool)
      (a : List (Option ProfileTierLevelCommon)) (rest : List Bool),
      ptlSubLayers pairs bs = .ok (a, rest) →
      bs.length = (a.map subLayerBits).sum + rest.length := by
  intro pairs
  induction pairs with
  | nil =>
    intro bs a rest h
    simp only [ptlSubLayers, BitReaderM.pure_apply, Except.ok.injEq,
      Prod.mk.injEq] at h
    simp [← h.1, ← h.2]
  | cons pair pairs ih =>
    intro bs a rest h
    obtain ⟨pp, lp⟩ := pair
    unfold ptlSubLayers at h
    obtain ⟨entry, m1, h1, h⟩ := bind_ok h
    obtain ⟨others, m2, h2, h⟩ := bind_ok h
    have e2 := ih m1 others m2 h2
    have e1 : bs.length = subLayerBits entry + m1.length := by
      unfold ptlSubLayerEntry at h1
      cases pp with
      | false =>
        simp only [Bool.false_eq_true, if_false] at h1
        simp only [BitReaderM.pure_apply, Except.ok.injEq, Prod.mk.injEq] at h1
        obtain ⟨he, hm⟩ := h1
        simp [← he, ← hm, subLayerBits]
      | true =>
        simp only [if_pos] at h1
        obtain ⟨c, mid, hc, hp⟩ := bind_ok h1
        obtain ⟨ec, eshape⟩ := ptlSubLayerBlock_spec lp bs c mid hc
        simp only [BitReaderM.pure_apply, Except.ok.injEq, Prod.mk.injEq] at hp
        obtain ⟨he, hm⟩ := hp
        rw [← he, ← hm]
        simp only [subLayerBits, eshape]
        omega
    simp only [BitReaderM.pure_apply, Except.ok.injEq, Prod.mk.injEq] at h
    obtain ⟨ha, hrest⟩ := h
    rw [← ha, ← hrest]
    simp only [List.map_cons, List.sum_cons]
    omega

theorem ptl_from_reader_consumed (ppf : Bool) (maxNumSubLayersMinus1 : Nat)
    (bs : List Bool) (r : ProfileTierLevel) (rest : List Bool)
    (h : ProfileTierLevel.from_reader ppf maxNumSubLayersMinus1 bs
      = .ok (r, rest)) :
    bs.length = ptlTotalBits maxNumSubLayersMinus1 r + rest.length := by
  unfold ProfileTierLevel.from_reader at h
  obtain ⟨g, m1, h1, h⟩ := bind_ok h
  obtain ⟨pairs, m2, h2, h⟩ := bind_ok h
  obtain ⟨u3, m3, h3, h⟩ := bind_ok h
  obtain ⟨subs, m4, h4, h⟩ := bind_ok h
  have e1 := consumes_ptlGeneralBlock bs g m1 h1
  obtain ⟨e2a, e2b⟩ := readSubLayerFlagPairs_spec maxNumSubLayersMinus1
    m1 pairs m2 h2
  have e3 := consumes_ptlReservedPad maxNumSubLayersMinus1 m2 u3 m3 h3
  have e4 := ptlSubLayers_spec pairs m3 subs m4 h4
  simp only [BitReaderM.pure_apply, Except.ok.injEq, Prod.mk.injEq] at h
  obtain ⟨hr, hrest⟩ := h
  have hrlen : m4.length = rest.length := by rw [hrest]
  have hsum : (r.sub_layers.map subLayerBits).sum
      = (subs.map subLayerBits).sum := by
    rw [← hr]
    simp [List.map_append, List.sum_append, List.map_replicate, subLayerBits]
  rw [ptlTotalBits, hsum]
  unfold ptlReservedPadBits at e3
  by_cases hm : maxNumSubLayersMinus1 = 0
  · rw [if_pos hm]
    rw [if_neg (by omega)] at e3
    subst hm
    omega
  · rw [if_neg hm]
    rw [if_pos (by omega)] at e3
    omega

/-- C9: the profile-dependent constraint-bits region consumes exactly 43
bits on each of its three mutually exclusive branches regardless of the
constraint-flag values; consequently the bit length of a whole
profile/tier/level structure is fully determined by
`max_num_sub_layers_minus1` and the sub-layer presence flags (visible in the
parsed result), and the general block always consumes exactly 96 bits. -/
theorem ptl_bit_count_spec :
    (∀ (profileIdc : Nat) (compatFlags : List Bool),
      Consumes (ptlConstraintBits profileIdc compatFlags) 43) ∧
    Consumes ptlGeneralBlock 96 ∧
    (∀ (profilePresentFlag : Bool) (maxNumSubLayersMinus1 : Nat)
      (bs : List Bool) (r : ProfileTierLevel) (rest : List Bool),
      maxNumSubLayersMinus1 ≤ 6 →
      ProfileTierLevel.from_reader profilePresentFlag maxNumSubLayersMinus1 bs
        = .ok (r, rest) →
      bs.length = ptlTotalBits maxNumSubLayersMinus1 r + rest.length) :=
  ⟨consumes_ptlConstraintBits, consumes_ptlGeneralBlock,
   fun ppf max bs r rest _ h => ptl_from_reader_consumed ppf max bs r rest h⟩

/-- C9 witness: an all-zero 96-bit general-only structure
(`max_num_sub_layers_minus1 = 0`) parses to completion, and the theorem
instantiates to its exact bit count. -/
theorem ptl_bit_count_spec_witness :
    ProfileTierLevel.from_reader true 0 (List.replicate 96 false)
      = .ok (⟨⟨0, false, 0, List.replicate 32 false, false, false, false,
          false, some 0⟩, List.replicate 6 none⟩, []) ∧
    (List.replicate 96 false).length
      = ptlTotalBits 0 ⟨⟨0, false, 0, List.replicate 32 false, false, false,
          false, false, some 0⟩, List.replicate 6 none⟩
        + ([] : List Bool).length :=
  ⟨by rfl,
   ptl_bit_count_spec.2.2 true 0 (List.replicate 96 false) _ []
     (by norm_num) (by rfl)⟩

/-! ## Short-term RPS parser (`src/h265/rps.rs`) and slice segment header
parser (`src/h265/slice.rs`) -/

/-- The entry loop of the non-predicted RPS form: for each of `count`
entries a delta-minus-one Exp-Golomb code and a "used by current picture"
bit, written into the fixed 16-slot arrays; the source's array indexing
panics when the signalled count exceeds 16.  The accumulated
`bit_count` is threaded through. -/
def rpsEntryLoop : Nat → Nat → List Nat → List Bool → Nat →
    BitReaderM (List Nat × List Bool × Nat)
  | _, 0, deltas, flags, cnt => pure (deltas, flags, cnt)
  | i, k + 1, deltas, flags, cnt =>
    if i < 16 then do
      let dv ← read_exp_golomb_ue_count_bits
      let f ← readBit
      rpsEntryLoop (i + 1) k (deltas.set i (dv.1 % 65536)) (flags.set i f)
        (cnt + dv.2 + 1)
    else
      bfail .panicked

/-- The direct (non-predicted) RPS form: negative/positive counts (`u8`
casts) and the two entry loops. -/
def rpsNonInterPrediction : BitReaderM (NonInterRefPicSetPrediction × Nat) := do
  let numNeg ← read_exp_golomb_ue_count_bits
  let numPos ← read_exp_golomb_ue_count_bits
  let s0 ← rpsEntryLoop 0 (numNeg.1 % 256) (List.replicate 16 0)
    (List.replicate 16 false) 0
  let s1 ← rpsEntryLoop 0 (numPos.1 % 256) (List.replicate 16 0)
    (List.replicate 16 false) 0
  pure (⟨numNeg.1 % 256, numPos.1 % 256, s0.1, s0.2.1, s1.1, s1.2.1⟩,
        numNeg.2 + numPos.2 + s0.2.2 + s1.2.2)

/-- The tail of the predicted RPS branch after the optional
`delta_idx_minus1`: the sign bit and the delta magnitude are read, and the
branch then panics — the `.expect(..)` on the absent slice RPS list (when
`delta_idx_minus1` was read) or the explicit `todo!("inter_ref_pic_set_
prediction_flag == true not supported")`. -/
def rpsInterTail : BitReaderM (ShortTermReferencePictureSetValue × Nat) := do
  let _deltaRpsSign ← readBit
  let _absDeltaRpsMinus1 ← read_exp_golomb_ue_count_bits
  bfail .panicked

/-- The predicted RPS branch: `delta_idx_minus1` is read only when the RPS
index equals the set count (an RPS signalled from a slice header). -/
def rpsInterPrediction (stRpsIndex numSets : Nat) :
    BitReaderM (ShortTermReferencePictureSetValue × Nat) :=
  if stRpsIndex = numSets then do
    let _deltaIdxMinus1 ← read_exp_golomb_ue_count_bits
    rpsInterTail
  else
    rpsInterTail

/-- The value part of an RPS, chosen by the prediction flag. -/
def rpsValueParse (stRpsIndex numSets : Nat) (interFlag : Bool) :
    BitReaderM (ShortTermReferencePictureSetValue × Nat) :=
  if interFlag then
    rpsInterPrediction stRpsIndex numSets
  else do
    let v ← rpsNonInterPrediction
    pure (.nonInterRefPicSetPrediction v.1, v.2)

/-- The `inter_ref_pic_set_prediction_flag` bit, present only for RPS index
`> 0` (one bit counted when present). -/
def readInterFlagOpt (stRpsIndex : Nat) : BitReaderM (Option Bool × Nat) :=
  if stRpsIndex ≠ 0 then do
    let b ← readBit
    pure (some b, 1)
  else
    pure (none, 0)

/-- `ShortTermReferencePictureSet::from_bit_reader` from `src/h265/rps.rs`
(the slice-header entry point, `slice_sps_st_ref_pic_sets = None`),
returning the parsed set together with the number of bits consumed
(the `bit_count` out-parameter). -/
def ShortTermReferencePictureSet.from_bit_reader (stRpsIndex numSets : Nat) :
    BitReaderM (ShortTermReferencePictureSet × Nat) := do
  let fo ← readInterFlagOpt stRpsIndex
  let v ← rpsValueParse stRpsIndex numSets (fo.1.getD false)
  pure (⟨fo.1, v.1⟩, fo.2 + v.2)

/-- `SliceType` from `src/h265/slice.rs`. -/
inductive SliceType where
  | B
  | P
  | I
deriving DecidableEq, Repr

/-- `TryFrom<u8> for SliceType`. -/
def sliceTypeTryFrom : Nat → Option SliceType
  | 0 => some .B
  | 1 => some .P
  | 2 => some .I
  | _ => none

/-- The `.try_into().unwrap()` on the decoded `slice_type`: a value outside
`{0, 1, 2}` panics. -/
def sliceTypeOrPanic (v : Nat) : BitReaderM SliceType :=
  match sliceTypeTryFrom v with
  | some s => pure s
  | none => bfail .panicked

/-- A flag-gated single-bit read. -/
def readOptionalBit (c : Bool) : BitReaderM (Option Bool) :=
  if c then do
    let b ← readBit
    pure (some b)
  else
    pure none

/-- The flag-gated 2-bit `colour_plane_id` read. -/
def readColourPlaneIdOpt (c : Bool) : BitReaderM (Option Nat) :=
  if c then do
    let v ← readU8 2
    pure (some v)
  else
    pure none

/-- `n` reserved slice-header bits, read and discarded. -/
def skipBits : Nat → BitReaderM Unit
  | 0 => pure ()
  | n + 1 => do
    let _ ← readBit
    skipBits n

/-- `Ceil(Log2(PicSizeInCtbsY))`, the `slice_segment_address` bit width
derived from the context's picture geometry.  The source computes the
ceiling log via `f64::log2().ceil()`; for the picture sizes representable
here that equals `Nat.clog 2`. -/
def sliceAddressBits (ctx : SliceSegmentContext) : Nat :=
  let minCbLog2SizeY := ctx.log2_min_luma_coding_block_size_minus3 + 3
  let ctbLog2SizeY :=
    minCbLog2SizeY + ctx.log2_diff_max_min_luma_coding_block_size
  let ctbSizeY := 1 <<< ctbLog2SizeY
  let picWidthInCtbsY :=
    (ctx.pic_width_in_luma_samples + ctbSizeY - 1) / ctbSizeY
  let picHeightInCtbsY :=
    (ctx.pic_height_in_luma_samples + ctbSizeY - 1) / ctbSizeY
  Nat.clog 2 (picWidthInCtbsY * picHeightInCtbsY)

/-- The dependent-slice-segment flag and slice address, present only when
this is not the first slice segment of the picture. -/
def readDepFlagAndAddress (ctx : SliceSegmentContext) (firstSlice : Bool) :
    BitReaderM (Option Bool × Option Nat) :=
  if firstSlice = false then do
    let dep ← readOptionalBit ctx.dependent_slice_segments_enabled_flag
    let addr ← readU32 (sliceAddressBits ctx)
    pure (dep, some addr)
  else
    pure (none, none)

/-- The block of slice-header fields the source assembles through `let
mut` locals (all `None`/0 unless the parse path below sets them). -/
structure SliceTailData where
  slice_pic_order_cnt_lsb : Option Nat
  short_term_ref_pic_set_sps_flag : Option Bool
  short_term_ref_pic_set : Option ShortTermReferencePictureSet
  short_term_ref_pic_set_size : Option Nat
  short_term_ref_pic_set_idx : Option Nat
  curr_rps_idx : Nat
deriving DecidableEq, Repr

/-- The RPS selection of a non-IDR slice: an embedded RPS when
`short_term_ref_pic_set_sps_flag` is false (with `CurrRpsIdx` set to the
SPS RPS count and the consumed bit count recorded), else an index into the
SPS's RPS list when the SPS has more than one RPS. -/
def sliceRpsPart (ctx : SliceSegmentContext) (lsb : Nat) (spsFlag : Bool) :
    BitReaderM SliceTailData :=
  if spsFlag = false then do
    let rc ← ShortTermReferencePictureSet.from_bit_reader
      ctx.num_short_term_ref_pic_sets ctx.num_short_term_ref_pic_sets
    pure ⟨some lsb, some spsFlag, some rc.1, some (rc.2 % 65536), none,
      ctx.num_short_term_ref_pic_sets⟩
  else if 1 < ctx.num_short_term_ref_pic_sets then do
    let v ← readU8 (Nat.clog 2 ctx.num_short_term_ref_pic_sets)
    pure ⟨some lsb, some spsFlag, none, none, some v, v⟩
  else
    pure ⟨some lsb, some spsFlag, none, none, none, 0⟩

/-- The non-IDR part of the slice header: the fixed-width POC LSB, the
`short_term_ref_pic_set_sps_flag`, and the RPS selection. -/
def sliceNonIdrPart (t : NaluType) (ctx : SliceSegmentContext) :
    BitReaderM SliceTailData :=
  if t.is_idr = false then do
    let lsb ← readU16 (ctx.log2_max_pic_order_cnt_lsb_minus4 + 4)
    let spsFlag ← readBit
    sliceRpsPart ctx lsb spsFlag
  else
    pure ⟨none, none, none, none, none, 0⟩

/-- The fields parsed only for non-dependent slice segments: reserved
bits, slice type (unwrap-panicking on an invalid code), optional output
flag and colour plane id, then the non-IDR part. -/
def sliceNonDepTail (t : NaluType) (ctx : SliceSegmentContext) :
    BitReaderM SliceTailData := do
  skipBits ctx.num_extra_slice_header_bits
  let st ← read_exp_golomb_ue
  let _sliceType ← sliceTypeOrPanic (st % 256)
  let _picOutputFlag ← readOptionalBit ctx.output_flag_present_flag
  let _colourPlaneId ← readColourPlaneIdOpt ctx.separate_colour_plane_flag
  sliceNonIdrPart t ctx

/-- The guard `!dependent_slice_segment_flag.unwrap_or(false)` around the
non-dependent tail. -/
def sliceDepTail (t : NaluType) (ctx : SliceSegmentContext)
    (depFlag : Option Bool) : BitReaderM SliceTailData :=
  if depFlag.getD false = false then
    sliceNonDepTail t ctx
  else
    pure ⟨none, none, none, none, none, 0⟩

/-- `SliceSegmentHeader::from_rbsp_reader` from `src/h265/slice.rs`.  The
`no_output_of_prior_pics_flag` guard
`nal_unit_type >= BlaWLp && nal_unit_type <= RsvIrapVcl23` is the numeric
code range `16 ..= 23` (the enum's ordering is its discriminant
ordering). -/
def SliceSegmentHeader.from_rbsp_reader (t : NaluType)
    (ctx : SliceSegmentContext) : BitReaderM SliceSegmentHeader := do
  let firstSlice ← readBit
  let noOut ← readOptionalBit
    (decide (16 ≤ t.toCode) && decide (t.toCode ≤ 23))
  let ppsId ← read_exp_golomb_ue
  let da ← readDepFlagAndAddress ctx firstSlice
  let d ← sliceDepTail t ctx da.1
  pure ⟨t, firstSlice, noOut, ppsId % 256, da.1, da.2,
    d.short_term_ref_pic_set_sps_flag, d.short_term_ref_pic_set,
    d.short_term_ref_pic_set_size, d.slice_pic_order_cnt_lsb,
    d.short_term_ref_pic_set_idx, d.curr_rps_idx⟩

theorem sliceRpsPart_spec (ctx : SliceSegmentContext) (lsb : Nat)
    (spsFlag : Bool) (bs : List Bool) (d : SliceTailData) (rest : List Bool)
    (h : sliceRpsPart ctx lsb spsFlag bs = .ok (d, rest)) :
    d.slice_pic_order_cnt_lsb = some lsb ∧
    d.short_term_ref_pic_set_sps_flag = some spsFlag ∧
    (d.short_term_ref_pic_set.isSome ↔ spsFlag = false) ∧
    (d.short_term_ref_pic_set_size.isSome ↔ spsFlag = false) ∧
    (d.short_term_ref_pic_set_idx.isSome →
      spsFlag = true ∧ 1 < ctx.num_short_term_ref_pic_sets) := by
  unfold sliceRpsPart at h
  by_cases hs : spsFlag = false
  · rw [if_pos hs] at h
    obtain ⟨rc, mid, h1, h⟩ := bind_ok h
    simp only [BitReaderM.pure_apply, Except.ok.injEq, Prod.mk.injEq] at h
    obtain ⟨hd, _⟩ := h
    rw [← hd]
    simp [hs]
  · rw [if_neg hs] at h
    have hs' : spsFlag = true := by
      cases spsFlag
      · exact absurd rfl hs
      · rfl
    by_cases hn : 1 < ctx.num_short_term_ref_pic_sets
    · rw [if_pos hn] at h
      obtain ⟨v, mid, h1, h⟩ := bind_ok h
      simp only [BitReaderM.pure_apply, Except.ok.injEq, Prod.mk.injEq] at h
      obtain ⟨hd, _⟩ := h
      rw [← hd]
      simp [hs', hn]
    · rw [if_neg hn] at h
      simp only [BitReaderM.pure_apply, Except.ok.injEq, Prod.mk.injEq] at h
      obtain ⟨hd, _⟩ := h
      rw [← hd]
      simp [hs']

theorem sliceNonIdrPart_spec (t : NaluType) (ctx : SliceSegmentContext)
    (bs : List Bool) (d : SliceTailData) (rest : List Bool)
    (h : sliceNonIdrPart t ctx bs = .ok (d, rest)) :
    (d.slice_pic_order_cnt_lsb.isSome ↔ t.is_idr = false) ∧
    (d.short_term_ref_pic_set.isSome ↔
      d.short_term_ref_pic_set_size.isSome) ∧
    (d.short_term_ref_pic_set.isSome ↔
      d.short_term_ref_pic_set_sps_flag = some false) ∧
    (d.short_term_ref_pic_set_idx.isSome →
      d.short_term_ref_pic_set_sps_flag = some true ∧
        1 < ctx.num_short_term_ref_pic_sets) := by
  unfold sliceNonIdrPart at h
  by_cases hi : t.is_idr = false
  · rw [if_pos hi] at h
    obtain ⟨lsb, m1, h1, h⟩ := bind_ok h
    obtain ⟨spsFlag, m2, h2, h⟩ := bind_ok h
    obtain ⟨e1, e2, e3, e4, e5⟩ := sliceRpsPart_spec ctx lsb spsFlag m2 d rest h
    refine ⟨by simp [e1, hi], by rw [e3, e4], ?_, ?_⟩
    · rw [e3, e2]
      cases spsFlag <;> simp
    · intro hidx
      obtain ⟨hf, hn⟩ := e5 hidx
      exact ⟨by rw [e2, hf], hn⟩
  · rw [if_neg hi] at h
    simp only [BitReaderM.pure_apply, Except.ok.injEq, Prod.mk.injEq] at h
    obtain ⟨hd, _⟩ := h
    rw [← hd]
    simp [hi]

theorem sliceNonDepTail_spec (t : NaluType) (ctx : SliceSegmentContext)
    (bs : List Bool) (d : SliceTailData) (rest : List Bool)
    (h : sliceNonDepTail t ctx bs = .ok (d, rest)) :
    (d.slice_pic_order_cnt_lsb.isSome ↔ t.is_idr = false) ∧
    (d.short_term_ref_pic_set.isSome ↔
      d.short_term_ref_pic_set_size.isSome) ∧
    (d.short_term_ref_pic_set.isSome ↔
      d.short_term_ref_pic_set_sps_flag = some false) ∧
    (d.short_term_ref_pic_set_idx.isSome →
      d.short_term_ref_pic_set_sps_flag = some true ∧
        1 < ctx.num_short_term_ref_pic_sets) := by
  unfold sliceNonDepTail at h
  obtain ⟨u1, m1, h1, h⟩ := bind_ok h
  obtain ⟨st, m2, h2, h⟩ := bind_ok h
  obtain ⟨sty, m3, h3, h⟩ := bind_ok h
  obtain ⟨po, m4, h4, h⟩ := bind_ok h
  obtain ⟨cp, m5, h5, h⟩ := bind_ok h
  exact sliceNonIdrPart_spec t ctx m5 d rest h

theorem sliceDepTail_spec (t : NaluType) (ctx : SliceSegmentContext)
    (depFlag : Option Bool) (bs : List Bool) (d : SliceTailData)
    (rest : List Bool) (h : sliceDepTail t ctx depFlag bs = .ok (d, rest)) :
    (d.slice_pic_order_cnt_lsb.isSome ↔
      (t.is_idr = false ∧ depFlag.getD false = false)) ∧
    (d.short_term_ref_pic_set.isSome ↔
      d.short_term_ref_pic_set_size.isSome) ∧
    (d.short_term_ref_pic_set.isSome ↔
      d.short_term_ref_pic_set_sps_flag = some false) ∧
    (d.short_term_ref_pic_set_idx.isSome →
      d.short_term_ref_pic_set_sps_flag = some true ∧
        1 < ctx.num_short_term_ref_pic_sets) := by
  unfold sliceDepTail at h
  by_cases hdep : depFlag.getD false = false
  · rw [if_pos hdep] at h
    obtain ⟨e1, e2, e3, e4⟩ := sliceNonDepTail_spec t ctx bs d rest h
    exact ⟨by rw [e1]; simp [hdep], e2, e3, e4⟩
  · rw [if_neg hdep] at h
    simp only [BitReaderM.pure_apply, Except.ok.injEq, Prod.mk.injEq] at h
    obtain ⟨hd, _⟩ := h
    rw [← hd]
    simp [hdep]

theorem optionBool_getD_false_iff (o : Option Bool) :
    (o.getD false = false) ↔ o ≠ some true := by
  cases o with
  | none => simp
  | some b => cases b <;> simp

/-- C10: every successfully parsed slice segment header satisfies:
`slice_pic_order_cnt_lsb` is `Some` iff the NAL type is not IDR and
`dependent_slice_segment_flag` is not `Some true`; `short_term_ref_pic_set`
and `short_term_ref_pic_set_size` are `Some` together, exactly when
`short_term_ref_pic_set_sps_flag` is `Some false`; and
`short_term_ref_pic_set_idx` is `Some` only when
`short_term_ref_pic_set_sps_flag` is `Some true` and the context's
`num_short_term_ref_pic_sets` exceeds 1. -/
theorem slice_header_option_invariants (t : NaluType)
    (ctx : SliceSegmentContext) (bs : List Bool) (r : SliceSegmentHeader)
    (rest : List Bool)
    (h : SliceSegmentHeader.from_rbsp_reader t ctx bs = .ok (r, rest)) :
    (r.slice_pic_order_cnt_lsb.isSome ↔
      (t.is_idr = false ∧ r.dependent_slice_segment_flag ≠ some true)) ∧
    (r.short_term_ref_pic_set.isSome ↔
      r.short_term_ref_pic_set_size.isSome) ∧
    (r.short_term_ref_pic_set.isSome ↔
      r.short_term_ref_pic_set_sps_flag = some false) ∧
    (r.short_term_ref_pic_set_idx.isSome →
      r.short_term_ref_pic_set_sps_flag = some true ∧
        1 < ctx.num_short_term_ref_pic_sets) := by
  unfold SliceSegmentHeader.from_rbsp_reader at h
  obtain ⟨firstSlice, m1, h1, h⟩ := bind_ok h
  obtain ⟨noOut, m2, h2, h⟩ := bind_ok h
  obtain ⟨ppsId, m3, h3, h⟩ := bind_ok h
  obtain ⟨da, m4, h4, h⟩ := bind_ok h
  obtain ⟨d, m5, h5, h⟩ := bind_ok h
  obtain ⟨e1, e2, e3, e4⟩ := sliceDepTail_spec t ctx da.1 m4 d m5 h5
  simp only [BitReaderM.pure_apply, Except.ok.injEq, Prod.mk.injEq] at h
  obtain ⟨hr, _⟩ := h
  rw [← hr]
  refine ⟨?_, e2, e3, e4⟩
  rw [e1, optionBool_getD_false_iff]

/-- The header record the C10 witness parses. -/
def sliceWitnessHeader : SliceSegmentHeader :=
  ⟨.trailR, true, none, 0, none, none, some false,
   some ⟨none, .nonInterRefPicSetPrediction
     ⟨0, 0, List.replicate 16 0, List.replicate 16 false,
      List.replicate 16 0, List.replicate 16 false⟩⟩,
   some 2, some 0, none, 0⟩

/-- C10 witness: a 10-bit trailing-picture slice header with an embedded
direct RPS (`short_term_ref_pic_set_sps_flag = false`). -/
theorem slice_header_option_invariants_witness :
    (sliceWitnessHeader.slice_pic_order_cnt_lsb.isSome ↔
      (NaluType.is_idr .trailR = false ∧
        sliceWitnessHeader.dependent_slice_segment_flag ≠ some true)) ∧
    (sliceWitnessHeader.short_term_ref_pic_set.isSome ↔
      sliceWitnessHeader.short_term_ref_pic_set_size.isSome) ∧
    (sliceWitnessHeader.short_term_ref_pic_set.isSome ↔
      sliceWitnessHeader.short_term_ref_pic_set_sps_flag = some false) ∧
    (sliceWitnessHeader.short_term_ref_pic_set_idx.isSome →
      sliceWitnessHeader.short_term_ref_pic_set_sps_flag = some true ∧
        1 < (⟨false, 0, 0, 0, 0, 0, false, false, 0,
          0⟩ : SliceSegmentContext).num_short_term_ref_pic_sets) :=
  slice_header_option_invariants .trailR
    ⟨false, 0, 0, 0, 0, 0, false, false, 0, 0⟩
    [true, true, true, false, false, false, false, false, true, true]
    sliceWitnessHeader [] (by rfl)
